import Mathlib

/-!
# Formal model of the BananaGrams backend room engine

A shallow embedding of `backend/server.js`: the room state machine, the
tile pool, the adjacency validator, the inspection resolver and the
session-continuity (reconnect) logic, together with theorems about the
properties stated in the specification.

Conventions of the embedding:
* JS single-character letter strings are modelled as `Char`.
* Connection / socket identifiers are modelled as `String`.
* JS objects used as keyed maps (`room.players`, `room.inspectionVotes`)
  are modelled as insertion-ordered association lists; JS objects cannot
  hold a key twice, which the theorems carry as a `Nodup` hypothesis
  where it matters.
* Pixel coordinates are modelled as integers.  The validator divides a
  coordinate delta by the fixed spacing and applies `Math.round`; for an
  integer delta `a` and positive spacing `b` that is exactly
  `⌊(2a+b)/(2b)⌋` (half-up tie-breaking, as `Math.round` has), which
  `jsRoundDiv` implements in exact integer arithmetic.
* `Math.random`-driven shuffling (`shuffleArray`, a Fisher–Yates pass)
  is modelled by an explicit `shuffle : List Char → List Char` parameter;
  theorems that depend on a property of the shuffle assume it permutes
  (or merely preserves the length of) its input.
* A JS value that may be `null`/`undefined`/non-numeric is modelled with
  `Option`; a handler path that would raise an uncaught `TypeError` is
  modelled as `Except.error`.
-/

namespace Banana

/-- A player / socket identifier (`socket.id`). -/
abbrev PlayerId := String

/-- `TILE_SPACING` from `server.js`. -/
def TILE_SPACING : Int := 65

/-- `SNAP_TOLERANCE` from `server.js`. -/
def SNAP_TOLERANCE : Int := 28

/-- `INITIAL_POOL`: the fixed 144-tile Bananagrams letter distribution. -/
def INITIAL_POOL : List Char :=
  List.replicate 13 'A' ++ List.replicate 3 'B' ++ List.replicate 3 'C' ++
  List.replicate 6 'D' ++ List.replicate 18 'E' ++ List.replicate 3 'F' ++
  List.replicate 4 'G' ++ List.replicate 3 'H' ++ List.replicate 12 'I' ++
  List.replicate 2 'J' ++ List.replicate 2 'K' ++ List.replicate 5 'L' ++
  List.replicate 3 'M' ++ List.replicate 8 'N' ++ List.replicate 11 'O' ++
  List.replicate 3 'P' ++ List.replicate 2 'Q' ++ List.replicate 9 'R' ++
  List.replicate 6 'S' ++ List.replicate 9 'T' ++ List.replicate 6 'U' ++
  List.replicate 3 'V' ++ List.replicate 3 'W' ++ List.replicate 2 'X' ++
  List.replicate 3 'Y' ++ List.replicate 2 'Z'

/-- `Math.round (a / b)` for an integer `a` and a positive integer `b`,
computed exactly: `round` with half-up ties is `⌊a/b + 1/2⌋`. -/
def jsRoundDiv (a b : Int) : Int := Int.fdiv (2 * a + b) (2 * b)

/-- `Math.abs` on an integer. -/
def jsAbs (x : Int) : Int := if x < 0 then -x else x

/-- A raw board tile as submitted by a client to `peel`.  A JS element
that is `null`, or whose `left`/`top` is not a number, is modelled by a
missing (`none`) coordinate — both fail the same validator guard. -/
structure RawTile where
  left : Option Int
  top : Option Int
  deriving Repr, DecidableEq

/-- A snapped grid cell (`col`, `row`). -/
abbrev Cell := Int × Int

/-- The per-tile loop of validator steps 1–4: anchor-relative snapping of
every tile to an integer grid cell, rejecting (`none`) a tile without
numeric coordinates, a tile off the grid by more than `SNAP_TOLERANCE`,
and two tiles snapping to the same cell. -/
def snapGo (aL aT : Int) : List RawTile → List Cell → Option (List Cell)
  | [], acc => some acc.reverse
  | t :: ts, acc =>
    match t.left, t.top with
    | some l, some tp =>
      let col : Int := jsRoundDiv (l - aL) TILE_SPACING
      let row : Int := jsRoundDiv (tp - aT) TILE_SPACING
      let snappedLeft := aL + col * TILE_SPACING
      let snappedTop := aT + row * TILE_SPACING
      if jsAbs (l - snappedLeft) > SNAP_TOLERANCE ∨
          jsAbs (tp - snappedTop) > SNAP_TOLERANCE then
        none
      else if (col, row) ∈ acc then
        none
      else
        snapGo aL aT ts ((col, row) :: acc)
    | _, _ => none

/-- Steps 1–4 of the validator (see `snapGo` for the per-tile loop). -/
def snapTiles (boardTiles : List RawTile) : Option (List Cell) :=
  match boardTiles with
  | [] => none
  | t₀ :: _ =>
    match t₀.left, t₀.top with
    | some aL, some aT => snapGo aL aT boardTiles []
    | _, _ => none

/-- Does cell `c` have an occupied orthogonal neighbour in `cells`? -/
def hasOrthNeighbor (cells : List Cell) (c : Cell) : Bool :=
  decide ((c.1 + 1, c.2) ∈ cells) || decide ((c.1 - 1, c.2) ∈ cells) ||
  decide ((c.1, c.2 + 1) ∈ cells) || decide ((c.1, c.2 - 1) ∈ cells)

/-- `allTilesHaveAtLeastOneNeighbor` from `server.js`: steps 1–4 are
`snapTiles`; step 5 accepts iff every snapped cell has at least one
occupied orthogonal neighbour. -/
def allTilesHaveAtLeastOneNeighbor (boardTiles : List RawTile) : Bool :=
  match snapTiles boardTiles with
  | none => false
  | some cells => cells.all (hasOrthNeighbor cells)

/-- A placed tile: convenience constructor for a `RawTile` with numeric
coordinates. -/
def rt (l t : Int) : RawTile := ⟨some l, some t⟩

/-- A sanitized player board-snapshot tile (output of
`sanitizePlayerTiles`). -/
structure PTile where
  id : String
  letter : String
  revealed : Bool
  placed : Bool
  left : Int
  top : Int
  order : Int
  deriving Repr, DecidableEq

/-- A raw board-snapshot tile from `board_state_update`.  A field whose
JS value is absent or of the wrong type is `none`; a `null` array element
is modelled as the all-`none` record (it fails the very same filter). -/
structure PTileIn where
  id : Option String
  letter : Option String
  revealed : Option Bool
  placed : Option Bool
  left : Option Int
  top : Option Int
  order : Option Int
  deriving Repr, DecidableEq

/-- A sanitized inspection board tile (`{left, top, letter}`). -/
structure InspTile where
  left : Int
  top : Int
  letter : Char
  deriving Repr, DecidableEq

/-- A raw board tile submitted with `bananas`. -/
structure BTileIn where
  left : Option Int
  top : Option Int
  letter : Option String
  deriving Repr, DecidableEq

/-- The first character of a (nonempty, in all uses singleton) string. -/
def singletonChar (s : String) : Char := s.toList.headD 'A'

/-- JS `s.toUpperCase()`: character-wise upper-casing. -/
def jsToUpper (s : String) : String := ⟨s.data.map Char.toUpper⟩

/-- JS `s.trim()`: strip whitespace from both ends. -/
def jsTrim (s : String) : String :=
  ⟨((s.data.dropWhile Char.isWhitespace).reverse.dropWhile Char.isWhitespace).reverse⟩

/-- A player session record (`room.players[id]`).  The wall-clock
`disconnectedAt` timestamp is never read by any game logic and is not
modelled. -/
structure Player where
  id : PlayerId
  name : String
  rejoinKey : Option String
  hand : List Char
  tiles : List PTile
  handSize : Nat
  isOut : Bool
  connected : Bool
  deriving Repr, DecidableEq

/-- Room lifecycle status. -/
inductive RoomStatus
  | waiting
  | playing
  | inspecting
  deriving Repr, DecidableEq

/-- A room: pool, sessions, status and inspection sub-state. -/
structure Room where
  status : RoomStatus
  pool : List Char
  players : List (PlayerId × Player)
  inspectingPlayer : Option PlayerId
  inspectingBoardTiles : List InspTile
  inspectingJudges : List PlayerId
  inspectionVotes : List (PlayerId × String)
  deriving Repr, DecidableEq

/-- The room created on first `join_room` for an unknown room id. -/
def emptyRoom : Room :=
  { status := .waiting, pool := [], players := [], inspectingPlayer := none,
    inspectingBoardTiles := [], inspectingJudges := [], inspectionVotes := [] }

/-- Lookup in a JS-object-as-map (`m[k]`). -/
def alookup {α : Type} (l : List (PlayerId × α)) (k : PlayerId) : Option α :=
  (l.find? (fun e => decide (e.1 = k))).map (·.2)

/-- Overwrite the value at an existing key. -/
def aset {α : Type} (l : List (PlayerId × α)) (k : PlayerId) (v : α) :
    List (PlayerId × α) :=
  l.map (fun e => if e.1 = k then (k, v) else e)

/-- `delete m[k]`. -/
def aerase {α : Type} (l : List (PlayerId × α)) (k : PlayerId) :
    List (PlayerId × α) :=
  l.filter (fun e => decide (e.1 ≠ k))

/-- `m[k] = v`: overwrite if the key exists, else append (JS objects keep
insertion order). -/
def asetOrAppend {α : Type} (l : List (PlayerId × α)) (k : PlayerId) (v : α) :
    List (PlayerId × α) :=
  if (alookup l k).isSome then aset l k v else l ++ [(k, v)]

/-- JS `s || d` for an optional string (`undefined` and `""` are falsy). -/
def jsOr (s : Option String) (d : String) : String :=
  match s with
  | some v => if v = "" then d else v
  | none => d

/-- Server→client emissions, recorded in order. -/
inductive SEvent
  | errorMsg (dest : PlayerId) (msg : String)
  | roomStateUpdated
  | gameStarted (dest : PlayerId) (hand : List Char) (tiles : List PTile) (resumed : Bool)
  | peelReceived (dest : PlayerId) (tile : Char)
  | dumpReceived (dest : PlayerId) (tiles : List Char) (dumpedLetter : Char)
      (clientTileId : Option String)
  | rottenBananaDeclared (rottenId : Option PlayerId) (rottenName : String)
  | gameOver (winnerId : Option PlayerId) (winnerName : String)
  deriving Repr, DecidableEq

/-- The public per-player record inside a `room_state_updated` payload. -/
structure PublicPlayer where
  id : PlayerId
  name : String
  handSize : Nat
  isOut : Bool
  connected : Bool
  deriving Repr, DecidableEq

/-- The `room_state_updated` broadcast payload (`getRoomState`). -/
structure RoomState where
  players : List (PlayerId × PublicPlayer)
  status : RoomStatus
  poolSize : Nat
  inspectingPlayer : Option PlayerId
  inspectingBoardTiles : List InspTile
  inspectingJudges : List PlayerId
  inspectionVotes : List (PlayerId × String)
  deriving Repr, DecidableEq

/-- `getRoomState` from `server.js`. -/
def getRoomState (r : Room) : RoomState :=
  { players := r.players.map (fun e =>
      (e.1, { id := e.2.id, name := e.2.name, handSize := e.2.handSize,
              isOut := e.2.isOut, connected := e.2.connected }))
    status := r.status
    poolSize := r.pool.length
    inspectingPlayer := r.inspectingPlayer
    inspectingBoardTiles := r.inspectingBoardTiles
    inspectingJudges := r.inspectingJudges
    inspectionVotes := r.inspectionVotes }

/-- `sanitizePlayerTiles` from `server.js`: keep only well-typed tiles,
cap at 300, normalize letters to upper case and unplaced coordinates
to 0. -/
def sanitizePlayerTiles (tiles : Option (List PTileIn)) : List PTile :=
  match tiles with
  | none => []
  | some ts =>
    ((ts.filter (fun t =>
        t.id.isSome && t.letter.isSome &&
        decide ((t.letter.getD "").length = 1) &&
        t.revealed.isSome && t.placed.isSome &&
        (decide (t.placed = some false) || (t.left.isSome && t.top.isSome)))).take 300).map
      (fun t =>
        { id := t.id.getD ""
          letter := jsToUpper (t.letter.getD "")
          revealed := t.revealed.getD false
          placed := t.placed.getD false
          left := if t.placed.getD false then t.left.getD 0 else 0
          top := if t.placed.getD false then t.top.getD 0 else 0
          order := t.order.getD 0 })

/-- `clearInspectionState` from `server.js`. -/
def clearInspectionState (r : Room) : Room :=
  { r with inspectingPlayer := none, inspectingBoardTiles := [],
           inspectingJudges := [], inspectionVotes := [] }

/-- `concludeInspectionAsWinner`: room back to `waiting`, inspection
cleared, `game_over` broadcast. -/
def concludeInspectionAsWinner (r : Room) : Room × List SEvent :=
  let winnerId := r.inspectingPlayer
  let winnerName := ((winnerId.bind (alookup r.players)).map (·.name)).getD "Unknown"
  let r' := clearInspectionState { r with status := .waiting }
  (r', [.roomStateUpdated, .gameOver winnerId winnerName])

/-- `concludeInspectionAsRotten`: the candidate's inspected board letters
go back into the pool (reshuffled), the candidate is marked out with an
empty hand, room back to `playing`. -/
def concludeInspectionAsRotten (shuffle : List Char → List Char) (r : Room) :
    Room × List SEvent :=
  match r.inspectingPlayer with
  | none => (r, [])
  | some rottenId =>
    match alookup r.players rottenId with
    | none => (r, [])
    | some rotten =>
      let returnedTiles := r.inspectingBoardTiles.map (·.letter)
      let pool' := shuffle (r.pool ++ returnedTiles)
      let players' := aset r.players rottenId
        { rotten with isOut := true, hand := [], handSize := 0 }
      let r' := clearInspectionState
        { r with pool := pool', players := players', status := .playing }
      (r', [.rottenBananaDeclared (some rottenId) rotten.name, .roomStateUpdated])

/-- `maybeResolveInspection`: zero judges ⇒ winner; valid majority ⇒
winner; rotten majority, or valid no longer reachable ⇒ rotten;
otherwise keep waiting for votes.  The remaining-votes count is an
integer, as in JS, so it may be negative without truncation. -/
def maybeResolveInspection (shuffle : List Char → List Char) (r : Room) :
    Room × List SEvent :=
  if r.status ≠ .inspecting then (r, [])
  else
    let judgesCount := r.inspectingJudges.length
    if judgesCount = 0 then concludeInspectionAsWinner r
    else
      let votes := r.inspectionVotes.map (·.2)
      let validVotes := (votes.filter (fun v => decide (v = "valid"))).length
      let rottenVotes := (votes.filter (fun v => decide (v = "rotten"))).length
      let majorityNeeded := judgesCount / 2 + 1
      let remainingVotes : Int := (judgesCount : Int) - votes.length
      if validVotes ≥ majorityNeeded then concludeInspectionAsWinner r
      else if rottenVotes ≥ majorityNeeded ∨
          (validVotes : Int) + remainingVotes < (majorityNeeded : Int) then
        concludeInspectionAsRotten shuffle r
      else (r, [])

/-- The pending grace-period timers (`disconnectTimers` keys), each a
`(roomId, rejoinKey)` pair, in insertion order. -/
abbrev Timers := List (String × String)

/-- `getTimerKey` / `clearDisconnectTimer`: drop the timer keyed by
`(roomId, rejoinKey)`; a falsy room id or rejoin key is a no-op. -/
def clearDisconnectTimer (timers : Timers) (roomId : String)
    (rejoinKey : Option String) : Timers :=
  match rejoinKey with
  | none => timers
  | some k =>
    if roomId = "" ∨ k = "" then timers
    else timers.filter (fun e => decide (e ≠ (roomId, k)))

/-- `removePlayerFromRoom`: cancel the player's timer, fix up any active
inspection (candidate leaving aborts it; a judge leaving shrinks the
judge set, discards their vote and re-runs resolution), then delete the
session; a room left empty is destroyed (`none`). -/
def removePlayerFromRoom (shuffle : List Char → List Char) (roomId : String)
    (timers : Timers) (r : Room) (playerId : PlayerId) :
    Option Room × Timers × List SEvent :=
  match alookup r.players playerId with
  | none => (some r, timers, [])
  | some player =>
    let timers' := clearDisconnectTimer timers roomId player.rejoinKey
    let (r1, evs1) :=
      if r.status = .inspecting then
        if r.inspectingPlayer = some playerId then
          (clearInspectionState { r with status := .playing }, ([] : List SEvent))
        else
          maybeResolveInspection shuffle
            { r with
              inspectingJudges := r.inspectingJudges.filter (fun j => decide (j ≠ playerId)),
              inspectionVotes := aerase r.inspectionVotes playerId }
      else (r, [])
    let players' := aerase r1.players playerId
    if players'.isEmpty then (none, timers', evs1)
    else (some { r1 with players := players' }, timers', evs1 ++ [.roomStateUpdated])

/-- `scheduleDisconnectRemoval`: mark the session disconnected; a session
without a rejoin key is removed at once, otherwise a fresh grace-period
timer is (re)armed for its `(roomId, rejoinKey)` key. -/
def scheduleDisconnectRemoval (shuffle : List Char → List Char) (roomId : String)
    (timers : Timers) (r : Room) (playerId : PlayerId) :
    Option Room × Timers × List SEvent :=
  match alookup r.players playerId with
  | none => (some r, timers, [])
  | some player =>
    let r1 := { r with players := aset r.players playerId { player with connected := false } }
    match player.rejoinKey with
    | none => removePlayerFromRoom shuffle roomId timers r1 playerId
    | some k =>
      let timers1 := clearDisconnectTimer timers roomId (some k)
      (some r1, timers1 ++ [(roomId, k)], [.roomStateUpdated])

/-- The `setTimeout` callback armed by `scheduleDisconnectRemoval`,
i.e. the grace period elapsing for `rejoinKey`: if a session with that
key is still disconnected it is permanently removed, otherwise the stale
timer is dropped. -/
def fireDisconnectTimer (shuffle : List Char → List Char) (roomId : String)
    (timers : Timers) (roomOpt : Option Room) (rejoinKey : String) :
    Option Room × Timers × List SEvent :=
  let key := (roomId, rejoinKey)
  match roomOpt with
  | none => (none, timers.filter (fun e => decide (e ≠ key)), [])
  | some room =>
    match room.players.find? (fun e => decide (e.2.rejoinKey = some rejoinKey)) with
    | none => (some room, timers.filter (fun e => decide (e ≠ key)), [])
    | some (latestPlayerId, latestPlayer) =>
      if latestPlayer.connected = false then
        removePlayerFromRoom shuffle roomId timers room latestPlayerId
      else (some room, timers.filter (fun e => decide (e ≠ key)), [])

/-- The `join_room` handler: create the room if absent; a join carrying
the rejoin key of an existing session resumes that session in place
(identity swapped to the new connection, inspection references
rewritten, timer cancelled) unless it is still actively connected;
otherwise a fresh session is appended. -/
def joinRoom (roomId : String) (timers : Timers) (roomOpt : Option Room)
    (newId : PlayerId) (playerName : Option String) (rejoinKey : Option String) :
    Option Room × Timers × List SEvent :=
  if roomId = "" then (roomOpt, timers, [])
  else
    let room := roomOpt.getD emptyRoom
    let normalizedRejoinKey : Option String :=
      match rejoinKey with
      | some s => if jsTrim s = "" then none else some (jsTrim s)
      | none => none
    let existingEntry := normalizedRejoinKey.bind (fun k =>
      room.players.find? (fun e => decide (e.2.rejoinKey = some k)))
    match existingEntry with
    | some (previousId, previousPlayer) =>
      if previousPlayer.connected ≠ false ∧ previousId ≠ newId then
        (some room, timers,
         [.errorMsg newId "That player is already connected. Close the old tab or use a different name."])
      else
        let timers' := clearDisconnectTimer timers roomId previousPlayer.rejoinKey
        let newPlayer := { previousPlayer with
          id := newId, name := jsOr playerName previousPlayer.name, connected := true }
        let players1 := asetOrAppend room.players newId newPlayer
        let players2 := if previousId ≠ newId then aerase players1 previousId else players1
        let inspecting' :=
          if room.inspectingPlayer = some previousId then some newId
          else room.inspectingPlayer
        let judges' := room.inspectingJudges.map (fun j => if j = previousId then newId else j)
        let votes' :=
          match alookup room.inspectionVotes previousId with
          | some v => aerase (asetOrAppend room.inspectionVotes newId v) previousId
          | none => room.inspectionVotes
        let room' := { room with players := players2, inspectingPlayer := inspecting',
                                 inspectingJudges := judges', inspectionVotes := votes' }
        (some room', timers',
         [.roomStateUpdated, .gameStarted newId newPlayer.hand newPlayer.tiles true])
    | none =>
      let n := room.players.length + 1
      let newPlayer : Player :=
        { id := newId, name := jsOr playerName s!"Player {n}",
          rejoinKey := normalizedRejoinKey, hand := [], tiles := [],
          handSize := 0, isOut := false, connected := true }
      (some { room with players := asetOrAppend room.players newId newPlayer },
       timers, [.roomStateUpdated])

/-- Deal each session an `n`-tile hand spliced off the front of the pool
(the per-player loop body of the `start_game` handler: out-flag reset,
board snapshot reset, hand replaced). -/
def dealHands (pool : List Char) (n : Nat) :
    List (PlayerId × Player) → List Char × List (PlayerId × Player) × List SEvent
  | [] => (pool, [], [])
  | (k, p) :: ps =>
    let hand := pool.take n
    let p' := { p with isOut := false, tiles := [], hand := hand, handSize := hand.length }
    let evs := if p.connected then [SEvent.gameStarted k hand [] false] else []
    let (poolF, psF, evsF) := dealHands (pool.drop n) n ps
    (poolF, (k, p') :: psF, evs ++ evsF)

/-- The number of starting tiles per hand for a given player count. -/
def tilesPerHand (playerCount : Nat) : Nat :=
  if playerCount ≥ 7 then 11 else if playerCount ≥ 5 then 15 else 21

/-- The `start_game` handler: a no-op when the room is absent or already
`playing`; otherwise reinitialize the pool to the shuffled 144-tile
distribution, clear stale inspection state and deal every session a
fresh hand. -/
def startGame (shuffle : List Char → List Char) (roomOpt : Option Room) :
    Option Room × List SEvent :=
  match roomOpt with
  | none => (none, [])
  | some room =>
    if room.status = .playing then (some room, [])
    else
      let room1 := clearInspectionState
        { room with status := .playing, pool := shuffle INITIAL_POOL }
      let initialTiles := tilesPerHand room1.players.length
      let (poolF, playersF, evs) := dealHands room1.pool initialTiles room1.players
      (some { room1 with pool := poolF, players := playersF },
       evs ++ [.roomStateUpdated])

/-- The per-player loop body of the `peel` handler: every non-out session
pops one tile off the pool end into its hand.  (The empty-pool branch is
unreachable under the handler's pool-size guard.) -/
def peelDeal : List Char → List (PlayerId × Player) →
    List Char × List (PlayerId × Player) × List SEvent
  | pool, [] => (pool, [], [])
  | pool, (k, p) :: ps =>
    if p.isOut then
      let (poolF, psF, evs) := peelDeal pool ps
      (poolF, (k, p) :: psF, evs)
    else
      match pool.getLast? with
      | some t =>
        let p' := { p with hand := p.hand ++ [t], handSize := p.hand.length + 1 }
        let ev := if p.connected then [SEvent.peelReceived k t] else []
        let (poolF, psF, evs) := peelDeal pool.dropLast ps
        (poolF, (k, p') :: psF, ev ++ evs)
      | none =>
        let (poolF, psF, evs) := peelDeal pool ps
        (poolF, (k, p) :: psF, evs)

/-- The `peel` handler. -/
def peel (roomOpt : Option Room) (pid : PlayerId)
    (boardTiles : Option (List RawTile)) : Option Room × List SEvent :=
  match roomOpt with
  | none => (none, [])
  | some room =>
    if room.status ≠ .playing then (some room, [])
    else
      match alookup room.players pid with
      | none => (some room, [])
      | some peeler =>
        if peeler.isOut then (some room, [])
        else
          let submitted := match boardTiles with | some l => l.length | none => 0
          let hs := peeler.handSize
          if boardTiles.isNone ∨ submitted ≠ peeler.handSize then
            (some room,
             [.errorMsg pid s!"Board tile count ({submitted}) must match hand size ({hs})."])
          else if ¬ allTilesHaveAtLeastOneNeighbor (boardTiles.getD []) then
            (some room,
             [.errorMsg pid "You can only peel when every tile has at least one orthogonal connection."])
          else
            let activeCount := (room.players.filter (fun e => !e.2.isOut)).length
            if room.pool.length < activeCount then
              (some room,
               [.errorMsg pid "Not enough tiles left in the pool for a full peel. Call BANANAS."])
            else
              let (poolF, playersF, evs) := peelDeal room.pool room.players
              (some { room with pool := poolF, players := playersF },
               evs ++ [.roomStateUpdated])

/-- The `dump` handler. -/
def dump (shuffle : List Char → List Char) (roomOpt : Option Room)
    (pid : PlayerId) (letter : Option String) (clientTileId : Option String) :
    Option Room × List SEvent :=
  match roomOpt with
  | none => (none, [])
  | some room =>
    if room.status ≠ .playing then (some room, [])
    else
      match alookup room.players pid with
      | none => (some room, [])
      | some player =>
        if player.isOut then (some room, [])
        else if room.pool.length ≥ 3 then
          let normalizedLetter : String :=
            match letter with
            | some s => jsToUpper s
            | none => ""
          let nlChar : Option Char :=
            if normalizedLetter.length = 1 then some (singletonChar normalizedLetter)
            else none
          match nlChar with
          | some c =>
            if c ∈ player.hand then
              let hand1 := player.hand.erase c
              let pool1 := shuffle (room.pool ++ [c])
              let newTiles := pool1.take 3
              let hand2 := hand1 ++ newTiles
              let player' := { player with hand := hand2, handSize := hand2.length }
              (some { room with pool := pool1.drop 3,
                                players := aset room.players pid player' },
               [.dumpReceived pid newTiles c clientTileId, .roomStateUpdated])
            else
              (some room, [.errorMsg pid "You can only dump a tile currently in your hand."])
          | none =>
            (some room, [.errorMsg pid "You can only dump a tile currently in your hand."])
        else (some room, [.errorMsg pid "Not enough tiles left to dump!"])

/-- The sanitizing loop of the `bananas` handler: reject (`none`) any
tile without numeric coordinates or a single-character letter, otherwise
normalize letters to upper case. -/
def sanitizeBananaBoard : List BTileIn → Option (List InspTile)
  | [] => some []
  | t :: ts =>
    match t.left, t.top, t.letter with
    | some l, some tp, some s =>
      if s.length = 1 then
        (sanitizeBananaBoard ts).map (fun rest =>
          { left := l, top := tp, letter := (singletonChar s).toUpper } :: rest)
      else none
    | _, _, _ => none

/-- The `bananas` handler.  `Except.error ()` marks the uncaught JS
`TypeError` the handler raises when it dereferences
`candidate.handSize` for a socket that has no session in the room. -/
def bananas (shuffle : List Char → List Char) (roomOpt : Option Room)
    (pid : PlayerId) (boardTiles : Option (List BTileIn)) :
    Except Unit (Option Room × List SEvent) :=
  match roomOpt with
  | none => .ok (none, [])
  | some room =>
    if room.status ≠ .playing then .ok (some room, [])
    else
      let candidate? := alookup room.players pid
      if (candidate?.map (·.isOut)).getD false then .ok (some room, [])
      else
        let activePlayersCount := (room.players.filter (fun e => !e.2.isOut)).length
        if room.pool.length ≥ activePlayersCount then
          .ok (some room, [.errorMsg pid "Not enough tiles have been peeled to call Bananas!"])
        else
          match boardTiles with
          | none => .ok (some room, [.errorMsg pid "Your submitted board does not match your hand size."])
          | some bts =>
            match candidate? with
            | none => .error ()
            | some candidate =>
              if bts.length ≠ candidate.handSize then
                .ok (some room, [.errorMsg pid "Your submitted board does not match your hand size."])
              else
                match sanitizeBananaBoard bts with
                | none => .ok (some room, [.errorMsg pid "Invalid board data for inspection."])
                | some sanitizedBoard =>
                  let judges := ((room.players.map (·.2)).filter (fun p =>
                    !p.isOut && decide (p.id ≠ pid) && p.connected)).map (·.id)
                  let room1 := { room with status := .inspecting,
                                           inspectingPlayer := some pid,
                                           inspectingBoardTiles := sanitizedBoard,
                                           inspectingJudges := judges,
                                           inspectionVotes := [] }
                  let (room2, evs) := maybeResolveInspection shuffle room1
                  .ok (some room2, [.roomStateUpdated] ++ evs)

/-- The `inspection_vote` handler. -/
def inspectionVote (shuffle : List Char → List Char) (roomOpt : Option Room)
    (pid : PlayerId) (vote : String) : Option Room × List SEvent :=
  match roomOpt with
  | none => (none, [])
  | some room =>
    if room.status ≠ .inspecting then (some room, [])
    else if vote ≠ "valid" ∧ vote ≠ "rotten" then (some room, [])
    else if room.inspectingPlayer = some pid then
      (some room, [.errorMsg pid "Potential winner cannot vote on their own board."])
    else if pid ∉ room.inspectingJudges then
      (some room, [.errorMsg pid "You are not a judge for this inspection."])
    else if (alookup room.inspectionVotes pid).isSome then
      (some room, [.errorMsg pid "You already voted for this inspection."])
    else
      let room1 := { room with inspectionVotes := asetOrAppend room.inspectionVotes pid vote }
      let (room2, evs) := maybeResolveInspection shuffle room1
      (some room2, [.roomStateUpdated] ++ evs)

/-- The `board_state_update` handler: store the sanitized snapshot, but
silently ignore one whose size disagrees with a nonzero hand size. -/
def boardStateUpdate (roomOpt : Option Room) (pid : PlayerId)
    (tiles : Option (List PTileIn)) : Option Room × List SEvent :=
  match roomOpt with
  | none => (none, [])
  | some room =>
    match alookup room.players pid with
    | none => (some room, [])
    | some player =>
      let sanitized := sanitizePlayerTiles tiles
      if player.handSize > 0 ∧ sanitized.length ≠ player.handSize then (some room, [])
      else
        (some { room with players := aset room.players pid { player with tiles := sanitized } },
         [])

/-- The `leave_room` handler. -/
def leaveRoom (shuffle : List Char → List Char) (roomId : String)
    (timers : Timers) (roomOpt : Option Room) (pid : PlayerId) :
    Option Room × Timers × List SEvent :=
  if roomId = "" then (roomOpt, timers, [])
  else
    match roomOpt with
    | none => (none, timers, [])
    | some room => removePlayerFromRoom shuffle roomId timers room pid

/-! ## Derived state observables and invariants -/

/-- The authoritative number of tiles a room holds: pool plus hands.
(A player's `tiles` snapshot and the `inspectingBoardTiles` snapshot are
client-reported copies of letters already counted in a hand, so they are
not added again.) -/
def handsTotal (ps : List (PlayerId × Player)) : Nat :=
  (ps.map (fun e => e.2.hand.length)).sum

/-- Pool plus all hands. -/
def totalTiles (r : Room) : Nat := r.pool.length + handsTotal r.players

/-- The count used verbatim by the specification's conservation formula:
pool + hands + per-player board snapshots + inspecting board. -/
def specTotal (r : Room) : Nat :=
  r.pool.length + handsTotal r.players +
    (r.players.map (fun e => e.2.tiles.length)).sum +
    r.inspectingBoardTiles.length

/-- JS objects cannot hold a key twice. -/
def KeysOK (r : Room) : Prop := (r.players.map (fun e => e.1)).Nodup

/-- Every stored `handSize` agrees with the hand it summarizes. -/
def HandOK (r : Room) : Prop := ∀ e ∈ r.players, e.2.handSize = e.2.hand.length

/-- Lifted to a possibly-destroyed room. -/
def HandOKOpt : Option Room → Prop
  | none => True
  | some r => HandOK r

/-- The inspected board snapshot holds exactly as many tiles as the
candidate's hand (established by the `bananas` size guard). -/
def InspBalanced (r : Room) : Prop :=
  ∀ cid p, r.inspectingPlayer = some cid → alookup r.players cid = some p →
    r.inspectingBoardTiles.length = p.hand.length

/-- The number of active (non-out) players, as the handlers compute it. -/
def activeCount (r : Room) : Nat :=
  (r.players.filter (fun e => !e.2.isOut)).length

/-- The `validVotes` local of `maybeResolveInspection`. -/
def validVotes (r : Room) : Nat :=
  ((r.inspectionVotes.map (fun e => e.2)).filter (fun v => decide (v = "valid"))).length

/-- The `rottenVotes` local of `maybeResolveInspection`. -/
def rottenVotes (r : Room) : Nat :=
  ((r.inspectionVotes.map (fun e => e.2)).filter (fun v => decide (v = "rotten"))).length

/-- The `majorityNeeded` local: `floor(judgeCount / 2) + 1`. -/
def majorityNeeded (r : Room) : Nat := r.inspectingJudges.length / 2 + 1

/-- The `remainingVotes` local, a JS number that can go negative. -/
def remainingVotes (r : Room) : Int :=
  (r.inspectingJudges.length : Int) - (r.inspectionVotes.map (fun e => e.2)).length

/-! ## Concrete sample states used by witnesses and counterexamples -/

/-- A concrete one-player `playing` room whose pool has run empty (the
state peels drive a two-player game towards, or a solo room after a
start and no tiles left — any playing room with `pool < active count`
exhibits the same behaviour). -/
def ghostRoom : Room :=
  { status := .playing, pool := [],
    players := [("p1",
      { id := "p1", name := "Ann", rejoinKey := some "k1", hand := ['A'],
        tiles := [], handSize := 1, isOut := false, connected := true })],
    inspectingPlayer := none, inspectingBoardTiles := [],
    inspectingJudges := [], inspectionVotes := [] }

/-- A sample connected non-out player holding two tiles. -/
def wPeelerA : Player :=
  { id := "a", name := "Ann", rejoinKey := none, hand := ['C', 'D'],
    tiles := [], handSize := 2, isOut := false, connected := true }

/-- A second such player. -/
def wPeelerB : Player := { wPeelerA with id := "b", name := "Bob" }

/-- A two-player `playing` room with a two-tile pool. -/
def peelRoomW : Room :=
  { status := .playing, pool := ['E', 'F'],
    players := [("a", wPeelerA), ("b", wPeelerB)],
    inspectingPlayer := none, inspectingBoardTiles := [],
    inspectingJudges := [], inspectionVotes := [] }

/-- A player holding two copies of the same letter. -/
def dupPlayer : Player :=
  { id := "p1", name := "Ann", rejoinKey := none, hand := ['A', 'A'],
    tiles := [], handSize := 2, isOut := false, connected := true }

/-- A `playing` room whose single player holds a duplicated letter. -/
def dupHandRoom : Room :=
  { status := .playing, pool := ['B', 'C', 'D'], players := [("p1", dupPlayer)],
    inspectingPlayer := none, inspectingBoardTiles := [],
    inspectingJudges := [], inspectionVotes := [] }

/-- Players for the concrete inspection witness. -/
def judgePlayer (i : PlayerId) : Player :=
  { id := i, name := i, rejoinKey := none, hand := ['X'], tiles := [],
    handSize := 1, isOut := false, connected := true }

/-- A 3-judge `inspecting` room where two judges already voted `valid`. -/
def inspRoomW : Room :=
  { status := .inspecting, pool := ['B'],
    players := [("d", { judgePlayer "d" with hand := ['C'], handSize := 1 }),
                ("a", judgePlayer "a"), ("b", judgePlayer "b"), ("c", judgePlayer "c")],
    inspectingPlayer := some "d",
    inspectingBoardTiles := [{ left := 0, top := 0, letter := 'C' }],
    inspectingJudges := ["a", "b", "c"],
    inspectionVotes := [("a", "valid"), ("b", "valid")] }

/-- A `waiting` room with a nonempty (leftover) pool — the state a room
is in right after a confirmed win. -/
def waitPoolRoom : Room :=
  { status := .waiting, pool := ['Z'], players := [("p1", judgePlayer "p1")],
    inspectingPlayer := none, inspectingBoardTiles := [],
    inspectingJudges := [], inspectionVotes := [] }

/-- A disconnected session awaiting rejoin under key `ka`. -/
def rejoinP : Player :=
  { id := "old1", name := "Ann", rejoinKey := some "ka", hand := ['A', 'B'],
    tiles := [], handSize := 2, isOut := false, connected := false }

/-- A one-player room whose only session is disconnected. -/
def rejoinRoom : Room :=
  { status := .waiting, pool := ['C'], players := [("old1", rejoinP)],
    inspectingPlayer := none, inspectingBoardTiles := [],
    inspectingJudges := [], inspectionVotes := [] }

/-- The result of one peel on one player: one tile appended, size field
updated, everything else untouched. -/
def peeledPlayer (p : Player) (t : Char) : Player :=
  { p with hand := p.hand ++ [t], handSize := p.hand.length + 1 }

/-- The result of the start-of-game deal on one player. -/
def dealtPlayer (p : Player) (h : List Char) : Player :=
  { p with isOut := false, tiles := [], hand := h, handSize := h.length }

/-- The tile count of a possibly-destroyed room. -/
def totalTilesOpt : Option Room → Nat
  | none => 0
  | some r => totalTiles r

/-! ## Connectivity (for comparison with the validator's neighbour check) -/

/-- Two grid cells are orthogonally adjacent. -/
def orthAdjacent (a b : Cell) : Bool :=
  jsAbs (a.1 - b.1) + jsAbs (a.2 - b.2) == 1

/-- One breadth-first expansion of `reach` inside `cells`. -/
def growReach (cells reach : List Cell) : List Cell :=
  reach ++ cells.filter (fun c => decide (c ∉ reach) && reach.any (fun r => orthAdjacent c r))

/-- Iterated expansion. -/
def iterGrow (cells : List Cell) : Nat → List Cell → List Cell
  | 0, reach => reach
  | n + 1, reach => iterGrow cells n (growReach cells reach)

/-- Whether a cell layout forms a single orthogonally connected
component: every cell is reachable from the first one. -/
def connectedCells (cells : List Cell) : Bool :=
  match cells with
  | [] => true
  | c :: _ => cells.all (fun d => decide (d ∈ iterGrow cells cells.length [c]))

/-- The room after player `A` joins a fresh room `r`. -/
def roomA : Option Room := (joinRoom "r" [] none "A" (some "Ann") (some "ka")).1

/-- ... and after player `B` also joins. -/
def roomAB : Option Room := (joinRoom "r" [] roomA "B" (some "Bob") (some "kb")).1

/-- ... and after the game is started (identity shuffle): pool 102,
hands 21 + 21. -/
def roomStarted : Option Room := (startGame id roomAB).1

/-- A well-typed unplaced board-snapshot tile. -/
def snapTile : PTileIn :=
  { id := some "t", letter := some "a", revealed := some true,
    placed := some false, left := none, top := none, order := some 0 }

/-! ## Association-list lemmas -/

theorem alookup_nil {α : Type} (k : PlayerId) : alookup ([] : List (PlayerId × α)) k = none := rfl

theorem alookup_cons {α : Type} (e : PlayerId × α) (es : List (PlayerId × α))
    (k : PlayerId) :
    alookup (e :: es) k = if e.1 = k then some e.2 else alookup es k := by
  by_cases he : e.1 = k <;> simp [alookup, List.find?_cons, he]

theorem aset_cons {α : Type} (e : PlayerId × α) (es : List (PlayerId × α))
    (k : PlayerId) (v : α) :
    aset (e :: es) k v = (if e.1 = k then (k, v) else e) :: aset es k v := by
  by_cases he : e.1 = k <;> simp [aset, he]

theorem aerase_cons {α : Type} (e : PlayerId × α) (es : List (PlayerId × α))
    (k : PlayerId) :
    aerase (e :: es) k = if e.1 = k then aerase es k else e :: aerase es k := by
  by_cases he : e.1 = k <;> simp [aerase, List.filter_cons, he]

theorem alookup_aset_ne {α : Type} (l : List (PlayerId × α)) (k k' : PlayerId)
    (v : α) (h : k' ≠ k) : alookup (aset l k v) k' = alookup l k' := by
  induction l with
  | nil => rfl
  | cons e es ih =>
    rw [aset_cons]
    by_cases he : e.1 = k
    · rw [if_pos he, alookup_cons, alookup_cons, he]
      simp only [ih]
      rw [if_neg (fun hkk => h hkk.symm)]
      rw [if_neg (fun hkk => h hkk.symm)]
    · rw [if_neg he, alookup_cons, alookup_cons, ih]

theorem alookup_aset_self {α : Type} (l : List (PlayerId × α)) (k : PlayerId)
    (v : α) (h : (alookup l k).isSome) : alookup (aset l k v) k = some v := by
  induction l with
  | nil => simp [alookup] at h
  | cons e es ih =>
    rw [aset_cons]
    by_cases he : e.1 = k
    · rw [if_pos he, alookup_cons]
      simp
    · rw [alookup_cons, if_neg he] at h
      rw [if_neg he, alookup_cons, if_neg he]
      exact ih h

theorem alookup_aerase_ne {α : Type} (l : List (PlayerId × α)) (k k' : PlayerId)
    (h : k' ≠ k) : alookup (aerase l k) k' = alookup l k' := by
  induction l with
  | nil => rfl
  | cons e es ih =>
    rw [aerase_cons]
    by_cases he : e.1 = k
    · rw [if_pos he, ih, alookup_cons, if_neg (he ▸ fun hkk => h hkk.symm)]
    · rw [if_neg he, alookup_cons, alookup_cons, ih]

theorem alookup_aerase_self {α : Type} (l : List (PlayerId × α)) (k : PlayerId) :
    alookup (aerase l k) k = none := by
  induction l with
  | nil => rfl
  | cons e es ih =>
    rw [aerase_cons]
    by_cases he : e.1 = k
    · rw [if_pos he]; exact ih
    · rw [if_neg he, alookup_cons, if_neg he]; exact ih

theorem alookup_append {α : Type} (l₁ l₂ : List (PlayerId × α)) (k : PlayerId) :
    alookup (l₁ ++ l₂) k =
      match alookup l₁ k with
      | some v => some v
      | none => alookup l₂ k := by
  induction l₁ with
  | nil => simp [alookup]
  | cons e es ih =>
    rw [List.cons_append, alookup_cons, alookup_cons]
    by_cases he : e.1 = k
    · rw [if_pos he, if_pos he]
    · rw [if_neg he, if_neg he, ih]

theorem alookup_append_left {α : Type} {l₁ l₂ : List (PlayerId × α)}
    {k : PlayerId} {v : α} (h : alookup l₁ k = some v) :
    alookup (l₁ ++ l₂) k = some v := by
  rw [alookup_append, h]

theorem alookup_asetOrAppend_self {α : Type} (l : List (PlayerId × α))
    (k : PlayerId) (v : α) : alookup (asetOrAppend l k v) k = some v := by
  unfold asetOrAppend
  by_cases h : (alookup l k).isSome
  · rw [if_pos h]
    exact alookup_aset_self l k v h
  · rw [if_neg h, alookup_append]
    rw [Option.not_isSome_iff_eq_none] at h
    rw [h]
    simp [alookup_cons]

theorem alookup_asetOrAppend_ne {α : Type} (l : List (PlayerId × α))
    (k k' : PlayerId) (v : α) (h : k' ≠ k) :
    alookup (asetOrAppend l k v) k' = alookup l k' := by
  unfold asetOrAppend
  by_cases hs : (alookup l k).isSome
  · rw [if_pos hs]
    exact alookup_aset_ne l k k' v h
  · rw [if_neg hs, alookup_append]
    cases hl : alookup l k' with
    | some v' => rfl
    | none =>
      rw [alookup_cons, if_neg (fun hkk => h hkk.symm)]
      rfl

theorem alookup_of_mem_nodup {α : Type} (l : List (PlayerId × α)) (k : PlayerId)
    (v : α) (hmem : (k, v) ∈ l) (hnd : (l.map (fun e => e.1)).Nodup) :
    alookup l k = some v := by
  induction l with
  | nil => cases hmem
  | cons e es ih =>
    simp only [List.map_cons, List.nodup_cons] at hnd
    rw [alookup_cons]
    rcases List.mem_cons.mp hmem with heq | hmem2
    · subst heq; simp
    · have hne : e.1 ≠ k := by
        intro hk
        exact hnd.1 (hk ▸ (List.mem_map.mpr ⟨(k, v), hmem2, rfl⟩))
      rw [if_neg hne]
      exact ih hmem2 hnd.2

theorem alookup_mem {α : Type} {l : List (PlayerId × α)} {k : PlayerId} {v : α}
    (h : alookup l k = some v) : (k, v) ∈ l := by
  induction l with
  | nil => cases h
  | cons e es ih =>
    rw [alookup_cons] at h
    by_cases he : e.1 = k
    · rw [if_pos he] at h
      injection h with h
      have : (k, v) = e := by
        rw [← he, ← h]
      rw [this]
      exact List.mem_cons_self e es
    · rw [if_neg he] at h
      exact List.mem_cons_of_mem e (ih h)

theorem mem_aset {α : Type} {e : PlayerId × α} {l : List (PlayerId × α)}
    {k : PlayerId} {v : α} (h : e ∈ aset l k v) : e = (k, v) ∨ e ∈ l := by
  induction l with
  | nil => cases h
  | cons f fs ih =>
    rw [aset_cons] at h
    rcases List.mem_cons.mp h with heq | h2
    · by_cases hf : f.1 = k
      · rw [if_pos hf] at heq
        exact Or.inl heq
      · rw [if_neg hf] at heq
        exact Or.inr (heq ▸ List.mem_cons_self f fs)
    · rcases ih h2 with h3 | h3
      · exact Or.inl h3
      · exact Or.inr (List.mem_cons_of_mem f h3)

theorem forall_mem_aset {α : Type} {P : PlayerId × α → Prop}
    {l : List (PlayerId × α)} {k : PlayerId} {v : α}
    (h : ∀ e ∈ l, P e) (hv : P (k, v)) : ∀ e ∈ aset l k v, P e := by
  intro e he
  rcases mem_aset he with rfl | h2
  · exact hv
  · exact h e h2

theorem mem_aerase {α : Type} {e : PlayerId × α} {l : List (PlayerId × α)}
    {k : PlayerId} (h : e ∈ aerase l k) : e ∈ l :=
  (List.mem_filter.mp h).1

theorem forall_mem_asetOrAppend {α : Type} {P : PlayerId × α → Prop}
    {l : List (PlayerId × α)} {k : PlayerId} {v : α}
    (h : ∀ e ∈ l, P e) (hv : P (k, v)) : ∀ e ∈ asetOrAppend l k v, P e := by
  intro e he
  unfold asetOrAppend at he
  by_cases hs : (alookup l k).isSome
  · rw [if_pos hs] at he
    exact forall_mem_aset h hv e he
  · rw [if_neg hs] at he
    rcases List.mem_append.mp he with h2 | h2
    · exact h e h2
    · rcases List.mem_singleton.mp h2 with rfl
      exact hv

theorem aset_of_alookup_none {α : Type} (l : List (PlayerId × α)) (k : PlayerId)
    (v : α) (h : alookup l k = none) : aset l k v = l := by
  induction l with
  | nil => rfl
  | cons e es ih =>
    rw [alookup_cons] at h
    by_cases he : e.1 = k
    · rw [if_pos he] at h; cases h
    · rw [if_neg he] at h
      rw [aset_cons, if_neg he, ih h]

theorem keys_aset {α : Type} (l : List (PlayerId × α)) (k : PlayerId) (v : α) :
    (aset l k v).map (fun e => e.1) = l.map (fun e => e.1) := by
  induction l with
  | nil => rfl
  | cons e es ih =>
    rw [aset_cons]
    by_cases he : e.1 = k
    · simpa [he] using ih
    · simpa [he] using ih

theorem keys_nodup_aerase {α : Type} (l : List (PlayerId × α)) (k : PlayerId)
    (h : (l.map (fun e => e.1)).Nodup) :
    ((aerase l k).map (fun e => e.1)).Nodup :=
  h.sublist ((List.filter_sublist l).map (fun e => e.1))

theorem handsTotal_cons (e : PlayerId × Player) (es : List (PlayerId × Player)) :
    handsTotal (e :: es) = e.2.hand.length + handsTotal es := by
  simp [handsTotal]

theorem handsTotal_append (l₁ l₂ : List (PlayerId × Player)) :
    handsTotal (l₁ ++ l₂) = handsTotal l₁ + handsTotal l₂ := by
  simp [handsTotal]

theorem alookup_none_keys {α : Type} (l : List (PlayerId × α)) (k : PlayerId)
    (h : k ∉ l.map (fun e => e.1)) : alookup l k = none := by
  induction l with
  | nil => rfl
  | cons e es ih =>
    simp only [List.map_cons, List.mem_cons, not_or] at h
    rw [alookup_cons, if_neg (fun he => h.1 he.symm)]
    exact ih h.2

theorem handsTotal_aset (l : List (PlayerId × Player)) (k : PlayerId)
    (p v : Player) (hnd : (l.map (fun e => e.1)).Nodup)
    (hl : alookup l k = some p) :
    handsTotal (aset l k v) + p.hand.length = handsTotal l + v.hand.length := by
  induction l with
  | nil => cases hl
  | cons e es ih =>
    simp only [List.map_cons, List.nodup_cons] at hnd
    rw [alookup_cons] at hl
    rw [aset_cons]
    by_cases he : e.1 = k
    · rw [if_pos he] at hl ⊢
      cases hl
      have hnone : alookup es k = none :=
        alookup_none_keys es k (fun hk => hnd.1 (he ▸ hk))
      rw [aset_of_alookup_none es k v hnone, handsTotal_cons, handsTotal_cons]
      dsimp only
      omega
    · rw [if_neg he] at hl ⊢
      have := ih hnd.2 hl
      rw [handsTotal_cons, handsTotal_cons]
      omega

theorem aerase_of_alookup_none {α : Type} (l : List (PlayerId × α)) (k : PlayerId)
    (h : alookup l k = none) : aerase l k = l := by
  induction l with
  | nil => rfl
  | cons f fs ihf =>
    rw [alookup_cons] at h
    by_cases hf : f.1 = k
    · rw [if_pos hf] at h; cases h
    · rw [if_neg hf] at h
      rw [aerase_cons, if_neg hf, ihf h]

theorem handsTotal_aerase (l : List (PlayerId × Player)) (k : PlayerId)
    (p : Player) (hnd : (l.map (fun e => e.1)).Nodup)
    (hl : alookup l k = some p) :
    handsTotal (aerase l k) + p.hand.length = handsTotal l := by
  induction l with
  | nil => cases hl
  | cons e es ih =>
    simp only [List.map_cons, List.nodup_cons] at hnd
    rw [alookup_cons] at hl
    rw [aerase_cons]
    by_cases he : e.1 = k
    · rw [if_pos he] at hl ⊢
      cases hl
      have hnone : alookup es k = none :=
        alookup_none_keys es k (fun hk => hnd.1 (he ▸ hk))
      rw [aerase_of_alookup_none es k hnone, handsTotal_cons]
      omega
    · rw [if_neg he] at hl ⊢
      have := ih hnd.2 hl
      rw [handsTotal_cons, handsTotal_cons]
      omega

/-! ## Lemmas about the dealing loops -/

theorem peelDeal_nil (pool : List Char) : peelDeal pool [] = (pool, [], []) := rfl

theorem peelDeal_cons_out (pool : List Char) (k : PlayerId) (p : Player)
    (ps : List (PlayerId × Player)) (h : p.isOut = true) :
    peelDeal pool ((k, p) :: ps) =
      ((peelDeal pool ps).1, (k, p) :: (peelDeal pool ps).2.1,
       (peelDeal pool ps).2.2) := by
  simp [peelDeal, h]

theorem peelDeal_cons_act (pool : List Char) (k : PlayerId) (p : Player)
    (ps : List (PlayerId × Player)) (t : Char) (h : p.isOut = false)
    (ht : pool.getLast? = some t) :
    peelDeal pool ((k, p) :: ps) =
      ((peelDeal pool.dropLast ps).1,
       (k, peeledPlayer p t) :: (peelDeal pool.dropLast ps).2.1,
       (if p.connected then [SEvent.peelReceived k t] else []) ++
         (peelDeal pool.dropLast ps).2.2) := by
  simp [peelDeal, h, ht, peeledPlayer]

theorem dealHands_nil (pool : List Char) (n : Nat) :
    dealHands pool n [] = (pool, [], []) := rfl

theorem dealHands_cons (pool : List Char) (n : Nat) (k : PlayerId) (p : Player)
    (ps : List (PlayerId × Player)) :
    dealHands pool n ((k, p) :: ps) =
      ((dealHands (pool.drop n) n ps).1,
       (k, dealtPlayer p (pool.take n)) :: (dealHands (pool.drop n) n ps).2.1,
       (if p.connected then [SEvent.gameStarted k (pool.take n) [] false] else []) ++
         (dealHands (pool.drop n) n ps).2.2) := by
  simp [dealHands, dealtPlayer]

theorem filterActive_cons_out (k : PlayerId) (p : Player)
    (ps : List (PlayerId × Player)) (h : p.isOut = true) :
    (((k, p) :: ps).filter (fun e => !e.2.isOut)) = ps.filter (fun e => !e.2.isOut) := by
  simp [List.filter_cons, h]

theorem filterActive_cons_act (k : PlayerId) (p : Player)
    (ps : List (PlayerId × Player)) (h : p.isOut = false) :
    (((k, p) :: ps).filter (fun e => !e.2.isOut)) =
      (k, p) :: ps.filter (fun e => !e.2.isOut) := by
  simp [List.filter_cons, h]

theorem peelDeal_forall₂ : ∀ (ps : List (PlayerId × Player)) (pool : List Char),
    (ps.filter (fun e => !e.2.isOut)).length ≤ pool.length →
    List.Forall₂ (fun a b => b.1 = a.1 ∧
      (a.2.isOut = true → b.2 = a.2) ∧
      (a.2.isOut = false → ∃ t, b.2 = peeledPlayer a.2 t))
      ps (peelDeal pool ps).2.1
  | [], pool, _ => by simp [peelDeal_nil]
  | (k, p) :: ps, pool, h => by
    cases hout : p.isOut with
    | true =>
      rw [filterActive_cons_out k p ps hout] at h
      rw [peelDeal_cons_out pool k p ps hout]
      dsimp only
      refine List.Forall₂.cons ⟨rfl, fun _ => rfl, fun hc => ?_⟩
        (peelDeal_forall₂ ps pool h)
      rw [hout] at hc
      cases hc
    | false =>
      rw [filterActive_cons_act k p ps hout, List.length_cons] at h
      have hne : pool ≠ [] := by
        intro hnil
        rw [hnil] at h
        simp at h
      obtain ⟨t, ht⟩ := Option.isSome_iff_exists.mp (List.getLast?_isSome.mpr hne)
      have hlen : (ps.filter (fun e => !e.2.isOut)).length ≤ pool.dropLast.length := by
        rw [List.length_dropLast]
        omega
      rw [peelDeal_cons_act pool k p ps t hout ht]
      dsimp only
      refine List.Forall₂.cons ⟨rfl, fun hc => ?_, fun _ => ⟨t, rfl⟩⟩
        (peelDeal_forall₂ ps pool.dropLast hlen)
      rw [hout] at hc
      cases hc

theorem peelDeal_conservation : ∀ (ps : List (PlayerId × Player)) (pool : List Char),
    (ps.filter (fun e => !e.2.isOut)).length ≤ pool.length →
    (peelDeal pool ps).1.length + handsTotal (peelDeal pool ps).2.1 =
      pool.length + handsTotal ps
  | [], pool, _ => by simp [peelDeal_nil, handsTotal]
  | (k, p) :: ps, pool, h => by
    cases hout : p.isOut with
    | true =>
      rw [filterActive_cons_out k p ps hout] at h
      rw [peelDeal_cons_out pool k p ps hout]
      dsimp only
      rw [handsTotal_cons, handsTotal_cons]
      have := peelDeal_conservation ps pool h
      dsimp only
      omega
    | false =>
      rw [filterActive_cons_act k p ps hout, List.length_cons] at h
      have hne : pool ≠ [] := by
        intro hnil
        rw [hnil] at h
        simp at h
      obtain ⟨t, ht⟩ := Option.isSome_iff_exists.mp (List.getLast?_isSome.mpr hne)
      have hlen : (ps.filter (fun e => !e.2.isOut)).length ≤ pool.dropLast.length := by
        rw [List.length_dropLast]
        omega
      have hpos : 0 < pool.length := by
        cases pool with
        | nil => exact absurd rfl hne
        | cons c cs => simp
      rw [peelDeal_cons_act pool k p ps t hout ht]
      dsimp only
      rw [handsTotal_cons, handsTotal_cons]
      have ihr := peelDeal_conservation ps pool.dropLast hlen
      have hplen : pool.dropLast.length = pool.length - 1 := List.length_dropLast pool
      have hhand : (peeledPlayer p t).hand.length = p.hand.length + 1 := by
        simp [peeledPlayer]
      dsimp only
      omega

theorem peelDeal_pool_length : ∀ (ps : List (PlayerId × Player)) (pool : List Char),
    (ps.filter (fun e => !e.2.isOut)).length ≤ pool.length →
    (peelDeal pool ps).1.length =
      pool.length - (ps.filter (fun e => !e.2.isOut)).length
  | [], pool, _ => by simp [peelDeal_nil]
  | (k, p) :: ps, pool, h => by
    cases hout : p.isOut with
    | true =>
      rw [filterActive_cons_out k p ps hout] at h
      rw [peelDeal_cons_out pool k p ps hout, filterActive_cons_out k p ps hout]
      dsimp only
      exact peelDeal_pool_length ps pool h
    | false =>
      rw [filterActive_cons_act k p ps hout, List.length_cons] at h
      have hne : pool ≠ [] := by
        intro hnil
        rw [hnil] at h
        simp at h
      obtain ⟨t, ht⟩ := Option.isSome_iff_exists.mp (List.getLast?_isSome.mpr hne)
      have hlen : (ps.filter (fun e => !e.2.isOut)).length ≤ pool.dropLast.length := by
        rw [List.length_dropLast]
        omega
      rw [peelDeal_cons_act pool k p ps t hout ht, filterActive_cons_act k p ps hout,
        List.length_cons]
      dsimp only
      have ihr := peelDeal_pool_length ps pool.dropLast hlen
      have hplen : pool.dropLast.length = pool.length - 1 := List.length_dropLast pool
      omega

theorem dealHands_forall₂ (n : Nat) :
    ∀ (ps : List (PlayerId × Player)) (pool : List Char),
    List.Forall₂ (fun a b => b.1 = a.1 ∧ ∃ hd, b.2 = dealtPlayer a.2 hd)
      ps (dealHands pool n ps).2.1
  | [], pool => by simp [dealHands_nil]
  | (k, p) :: ps, pool => by
    rw [dealHands_cons]
    dsimp only
    exact List.Forall₂.cons ⟨rfl, pool.take n, rfl⟩
      (dealHands_forall₂ n ps (pool.drop n))

theorem dealHands_conservation (n : Nat) :
    ∀ (ps : List (PlayerId × Player)) (pool : List Char),
    (dealHands pool n ps).1.length + handsTotal (dealHands pool n ps).2.1 =
      pool.length
  | [], pool => by simp [dealHands_nil, handsTotal]
  | (k, p) :: ps, pool => by
    rw [dealHands_cons]
    dsimp only
    rw [handsTotal_cons]
    have ihr := dealHands_conservation n ps (pool.drop n)
    have h1 : (dealtPlayer p (pool.take n)).hand.length = (pool.take n).length := by
      simp [dealtPlayer]
    have h2 : (pool.take n).length + (pool.drop n).length = pool.length := by
      rw [List.length_take, List.length_drop]
      omega
    dsimp only
    omega

theorem dealHands_pool_length (n : Nat) :
    ∀ (ps : List (PlayerId × Player)) (pool : List Char),
    (dealHands pool n ps).1.length = pool.length - ps.length * n
  | [], pool => by simp [dealHands_nil]
  | (k, p) :: ps, pool => by
    rw [dealHands_cons]
    dsimp only
    have ihr := dealHands_pool_length n ps (pool.drop n)
    rw [ihr, List.length_drop, List.length_cons, Nat.succ_mul]
    omega

theorem dealHands_isOut (n : Nat) :
    ∀ (ps : List (PlayerId × Player)) (pool : List Char),
    ∀ e ∈ (dealHands pool n ps).2.1, e.2.isOut = false
  | [], pool => by simp [dealHands_nil]
  | (k, p) :: ps, pool => by
    rw [dealHands_cons]
    dsimp only
    rintro e he
    rcases List.mem_cons.mp he with rfl | he2
    · rfl
    · exact dealHands_isOut n ps (pool.drop n) e he2

theorem dealHands_full_hands (n : Nat) :
    ∀ (ps : List (PlayerId × Player)) (pool : List Char),
    ps.length * n ≤ pool.length →
    ∀ e ∈ (dealHands pool n ps).2.1, e.2.hand.length = n
  | [], pool, _ => by simp [dealHands_nil]
  | (k, p) :: ps, pool, h => by
    rw [List.length_cons, Nat.succ_mul] at h
    have hrest : ps.length * n ≤ (pool.drop n).length := by
      rw [List.length_drop]
      omega
    have ihr := dealHands_full_hands n ps (pool.drop n) hrest
    rw [dealHands_cons]
    dsimp only
    rintro e he
    rcases List.mem_cons.mp he with rfl | he2
    · have : (pool.take n).length = n := by
        rw [List.length_take]
        omega
      simpa [dealtPlayer] using this
    · exact ihr e he2

theorem peelDeal_handOK :
    ∀ (ps : List (PlayerId × Player)) (pool : List Char),
    (∀ e ∈ ps, e.2.handSize = e.2.hand.length) →
    ∀ e ∈ (peelDeal pool ps).2.1, e.2.handSize = e.2.hand.length
  | [], pool, _ => by simp [peelDeal_nil]
  | (k, p) :: ps, pool, h => by
    have hhead : p.handSize = p.hand.length := h (k, p) (List.mem_cons_self _ _)
    have htail : ∀ e ∈ ps, e.2.handSize = e.2.hand.length :=
      fun e he => h e (List.mem_cons_of_mem _ he)
    cases hout : p.isOut with
    | true =>
      rw [peelDeal_cons_out pool k p ps hout]
      dsimp only
      rintro e he
      rcases List.mem_cons.mp he with rfl | he2
      · exact hhead
      · exact peelDeal_handOK ps pool htail e he2
    | false =>
      cases hpool : pool.getLast? with
      | none =>
        have : peelDeal pool ((k, p) :: ps) =
            ((peelDeal pool ps).1, (k, p) :: (peelDeal pool ps).2.1,
             (peelDeal pool ps).2.2) := by
          simp [peelDeal, hout, hpool]
        rw [this]
        dsimp only
        rintro e he
        rcases List.mem_cons.mp he with rfl | he2
        · exact hhead
        · exact peelDeal_handOK ps pool htail e he2
      | some t =>
        rw [peelDeal_cons_act pool k p ps t hout hpool]
        dsimp only
        rintro e he
        rcases List.mem_cons.mp he with rfl | he2
        · simp [peeledPlayer]
        · exact peelDeal_handOK ps pool.dropLast htail e he2

theorem dealHands_handOK (n : Nat) :
    ∀ (ps : List (PlayerId × Player)) (pool : List Char),
    ∀ e ∈ (dealHands pool n ps).2.1, e.2.handSize = e.2.hand.length
  | [], pool => by simp [dealHands_nil]
  | (k, p) :: ps, pool => by
    rw [dealHands_cons]
    dsimp only
    rintro e he
    rcases List.mem_cons.mp he with rfl | he2
    · rfl
    · exact dealHands_handOK n ps (pool.drop n) e he2

theorem maybeResolve_handOK (shuffle : List Char → List Char) (r : Room)
    (h : HandOK r) : HandOK (maybeResolveInspection shuffle r).1 := by
  simp only [maybeResolveInspection]
  split
  · exact h
  · split
    · exact h
    · split
      · exact h
      · split
        · simp only [concludeInspectionAsRotten]
          cases hcp : r.inspectingPlayer with
          | none => exact h
          | some rid =>
            dsimp only
            cases hlk : alookup r.players rid with
            | none => exact h
            | some rotten =>
              dsimp only
              intro e he
              rcases mem_aset he with rfl | h2
              · rfl
              · exact h e h2
        · exact h

theorem joinRoom_handOK (roomId : String) (timers : Timers)
    (roomOpt : Option Room) (newId : PlayerId) (nm key : Option String)
    (h : HandOKOpt roomOpt) :
    HandOKOpt (joinRoom roomId timers roomOpt newId nm key).1 := by
  have hroom : HandOK (roomOpt.getD emptyRoom) := by
    cases roomOpt with
    | none => intro e he; cases he
    | some room => exact h
  simp only [joinRoom]
  split
  · exact h
  · split
    next previousId previousPlayer heq =>
      split
      · exact hroom
      · rcases Option.bind_eq_some.mp heq with ⟨k, _, hfind⟩
        have hprev : previousPlayer.handSize = previousPlayer.hand.length :=
          hroom _ (List.mem_of_find?_eq_some hfind)
        have h1 : ∀ e ∈ asetOrAppend (roomOpt.getD emptyRoom).players newId
            { previousPlayer with
                id := newId,
                name := jsOr nm previousPlayer.name,
                connected := true },
            e.2.handSize = e.2.hand.length :=
          forall_mem_asetOrAppend hroom hprev
        dsimp only
        intro e he
        by_cases hne : previousId ≠ newId
        · rw [if_pos hne] at he
          exact h1 e (mem_aerase he)
        · rw [if_neg hne] at he
          exact h1 e he
    next hnone =>
      dsimp only
      exact forall_mem_asetOrAppend hroom rfl

theorem startGame_handOK (shuffle : List Char → List Char)
    (roomOpt : Option Room) (h : HandOKOpt roomOpt) :
    HandOKOpt (startGame shuffle roomOpt).1 := by
  cases roomOpt with
  | none => exact trivial
  | some room =>
    simp only [startGame]
    split
    · exact h
    · exact dealHands_handOK _ room.players _

theorem peel_handOK (roomOpt : Option Room) (pid : PlayerId)
    (bts : Option (List RawTile)) (h : HandOKOpt roomOpt) :
    HandOKOpt (peel roomOpt pid bts).1 := by
  cases roomOpt with
  | none => exact trivial
  | some room =>
    simp only [peel]
    split
    · exact h
    · split
      · exact h
      · split
        · exact h
        · split
          · exact h
          · split
            · exact h
            · split
              · exact h
              · exact peelDeal_handOK room.players room.pool h

theorem dump_handOK (shuffle : List Char → List Char) (roomOpt : Option Room)
    (pid : PlayerId) (letter ctid : Option String) (h : HandOKOpt roomOpt) :
    HandOKOpt (dump shuffle roomOpt pid letter ctid).1 := by
  cases roomOpt with
  | none => exact trivial
  | some room =>
    simp only [dump]
    split
    · exact h
    · split
      · exact h
      · split
        · exact h
        · split
          · split
            · split
              · intro e he
                rcases mem_aset he with rfl | h2
                · rfl
                · exact h e h2
              · exact h
            · exact h
          · exact h

theorem bananas_handOK (shuffle : List Char → List Char) (roomOpt : Option Room)
    (pid : PlayerId) (bts : Option (List BTileIn))
    (res : Option Room × List SEvent)
    (hok : bananas shuffle roomOpt pid bts = .ok res) (h : HandOKOpt roomOpt) :
    HandOKOpt res.1 := by
  cases roomOpt with
  | none =>
    simp only [bananas] at hok
    injection hok with h2
    rw [← h2]
    exact trivial
  | some room =>
    simp only [bananas] at hok
    split at hok
    · injection hok with h2; rw [← h2]; exact h
    · split at hok
      · injection hok with h2; rw [← h2]; exact h
      · split at hok
        · injection hok with h2; rw [← h2]; exact h
        · split at hok
          · injection hok with h2; rw [← h2]; exact h
          · split at hok
            · cases hok
            · split at hok
              · injection hok with h2; rw [← h2]; exact h
              · split at hok
                · injection hok with h2; rw [← h2]; exact h
                · injection hok with h2
                  rw [← h2]
                  exact maybeResolve_handOK shuffle _ h

theorem vote_handOK (shuffle : List Char → List Char) (roomOpt : Option Room)
    (pid : PlayerId) (vote : String) (h : HandOKOpt roomOpt) :
    HandOKOpt (inspectionVote shuffle roomOpt pid vote).1 := by
  cases roomOpt with
  | none => exact trivial
  | some room =>
    simp only [inspectionVote]
    split
    · exact h
    · split
      · exact h
      · split
        · exact h
        · split
          · exact h
          · split
            · exact h
            · exact maybeResolve_handOK shuffle _ h

theorem boardStateUpdate_handOK (roomOpt : Option Room) (pid : PlayerId)
    (tiles : Option (List PTileIn)) (h : HandOKOpt roomOpt) :
    HandOKOpt (boardStateUpdate roomOpt pid tiles).1 := by
  cases roomOpt with
  | none => exact trivial
  | some room =>
    simp only [boardStateUpdate]
    split
    · exact h
    next player hpl =>
      split
      · exact h
      · intro e he
        rcases mem_aset he with rfl | h2
        · exact h (pid, player) (alookup_mem hpl)
        · exact h e h2

theorem removePlayer_handOK (shuffle : List Char → List Char) (roomId : String)
    (timers : Timers) (r : Room) (pid : PlayerId) (h : HandOK r) :
    HandOKOpt (removePlayerFromRoom shuffle roomId timers r pid).1 := by
  simp only [removePlayerFromRoom]
  split
  · exact h
  · split
    · split
      · split
        · exact trivial
        · intro e he
          exact h e (mem_aerase he)
      · split
        · exact trivial
        · intro e he
          exact maybeResolve_handOK shuffle
            { r with
                inspectingJudges := r.inspectingJudges.filter (fun j => decide (j ≠ pid)),
                inspectionVotes := aerase r.inspectionVotes pid } h e (mem_aerase he)
    · split
      · exact trivial
      · intro e he
        exact h e (mem_aerase he)

theorem schedule_handOK (shuffle : List Char → List Char) (roomId : String)
    (timers : Timers) (r : Room) (pid : PlayerId) (h : HandOK r) :
    HandOKOpt (scheduleDisconnectRemoval shuffle roomId timers r pid).1 := by
  simp only [scheduleDisconnectRemoval]
  split
  · exact h
  next player hpl =>
    have hset : HandOK { r with players := aset r.players pid { player with connected := false } } := by
      intro e he
      rcases mem_aset he with rfl | h2
      · exact h (pid, player) (alookup_mem hpl)
      · exact h e h2
    split
    · exact removePlayer_handOK shuffle roomId timers _ pid hset
    · exact hset

theorem fire_handOK (shuffle : List Char → List Char) (roomId : String)
    (timers : Timers) (roomOpt : Option Room) (key : String)
    (h : HandOKOpt roomOpt) :
    HandOKOpt (fireDisconnectTimer shuffle roomId timers roomOpt key).1 := by
  cases roomOpt with
  | none => exact trivial
  | some room =>
    simp only [fireDisconnectTimer]
    split
    · exact h
    · split
      · exact removePlayer_handOK shuffle roomId timers room _ h
      · exact h

theorem not_mem_of_alookup_none {α : Type} {l : List (PlayerId × α)}
    {k : PlayerId} (h : alookup l k = none) : k ∉ l.map (fun e => e.1) := by
  induction l with
  | nil => simp
  | cons e es ih =>
    rw [alookup_cons] at h
    by_cases he : e.1 = k
    · rw [if_pos he] at h; cases h
    · rw [if_neg he] at h
      simp only [List.map_cons, List.mem_cons, not_or]
      exact ⟨fun hk => he hk.symm, ih h⟩

theorem sanitizeBananaBoard_length :
    ∀ {bts : List BTileIn} {sb : List InspTile},
    sanitizeBananaBoard bts = some sb → sb.length = bts.length
  | [], sb, h => by
    simp only [sanitizeBananaBoard] at h
    injection h with h
    rw [← h]
    rfl
  | t :: ts, sb, h => by
    simp only [sanitizeBananaBoard] at h
    split at h
    · split at h
      · cases hrec : sanitizeBananaBoard ts with
        | none => rw [hrec] at h; cases h
        | some rest =>
          rw [hrec] at h
          injection h with h
          rw [← h, List.length_cons, List.length_cons,
            sanitizeBananaBoard_length hrec]
      · cases h
    · cases h

theorem maybeResolve_players_keys (shuffle : List Char → List Char) (r : Room) :
    ((maybeResolveInspection shuffle r).1.players).map (fun e => e.1) =
      r.players.map (fun e => e.1) := by
  simp only [maybeResolveInspection]
  split
  · rfl
  · split
    · rfl
    · split
      · rfl
      · split
        · simp only [concludeInspectionAsRotten]
          cases hcp : r.inspectingPlayer with
          | none => rfl
          | some rid =>
            dsimp only
            cases hlk : alookup r.players rid with
            | none => rfl
            | some rotten =>
              dsimp only
              exact keys_aset r.players rid _
        · rfl

theorem maybeResolve_lookup_ne (shuffle : List Char → List Char) (r : Room)
    (pid : PlayerId) (hncand : r.inspectingPlayer ≠ some pid) :
    alookup (maybeResolveInspection shuffle r).1.players pid =
      alookup r.players pid := by
  simp only [maybeResolveInspection]
  split
  · rfl
  · split
    · rfl
    · split
      · rfl
      · split
        · simp only [concludeInspectionAsRotten]
          cases hcp : r.inspectingPlayer with
          | none => rfl
          | some rid =>
            dsimp only
            cases hlk : alookup r.players rid with
            | none => rfl
            | some rotten =>
              dsimp only
              refine alookup_aset_ne r.players rid pid _ ?_
              intro hpe
              exact hncand (by rw [hcp, hpe])
        · rfl

theorem maybeResolve_totalTiles (shuffle : List Char → List Char) (r : Room)
    (hkeys : KeysOK r) (hbal : InspBalanced r)
    (hlen : ∀ l : List Char, (shuffle l).length = l.length) :
    totalTiles (maybeResolveInspection shuffle r).1 = totalTiles r := by
  simp only [maybeResolveInspection]
  split
  · rfl
  · split
    · rfl
    · split
      · rfl
      · split
        · simp only [concludeInspectionAsRotten]
          cases hcp : r.inspectingPlayer with
          | none => rfl
          | some rid =>
            dsimp only
            cases hlk : alookup r.players rid with
            | none => rfl
            | some rotten =>
              dsimp only
              have hb : r.inspectingBoardTiles.length = rotten.hand.length :=
                hbal rid rotten hcp hlk
              have hset := handsTotal_aset r.players rid rotten
                { rotten with isOut := true, hand := [], handSize := 0 } hkeys hlk
              simp only [totalTiles, clearInspectionState]
              rw [hlen (r.pool ++ r.inspectingBoardTiles.map (fun t => t.letter)),
                List.length_append, List.length_map]
              simp only [List.length_nil] at hset
              omega
        · rfl

theorem peel_totalTiles (roomOpt : Option Room) (pid : PlayerId)
    (bts : Option (List RawTile)) :
    totalTilesOpt (peel roomOpt pid bts).1 = totalTilesOpt roomOpt := by
  cases roomOpt with
  | none => rfl
  | some room =>
    simp only [peel]
    split
    · rfl
    · split
      · rfl
      · split
        · rfl
        · split
          · rfl
          · split
            · rfl
            · split
              · rfl
              next hpool =>
                simp only [totalTilesOpt, totalTiles]
                exact peelDeal_conservation room.players room.pool
                  (Nat.not_lt.mp hpool)

theorem vote_totalTiles (shuffle : List Char → List Char) (roomOpt : Option Room)
    (pid : PlayerId) (vote : String)
    (hkeys : ∀ room, roomOpt = some room → KeysOK room)
    (hbal : ∀ room, roomOpt = some room → InspBalanced room)
    (hlen : ∀ l : List Char, (shuffle l).length = l.length) :
    totalTilesOpt (inspectionVote shuffle roomOpt pid vote).1 =
      totalTilesOpt roomOpt := by
  cases roomOpt with
  | none => rfl
  | some room =>
    simp only [inspectionVote]
    split
    · rfl
    · split
      · rfl
      · split
        · rfl
        · split
          · rfl
          · split
            · rfl
            · exact maybeResolve_totalTiles shuffle
                { room with inspectionVotes := asetOrAppend room.inspectionVotes pid vote }
                (hkeys room rfl) (hbal room rfl) hlen

theorem board_totalTiles (roomOpt : Option Room) (pid : PlayerId)
    (tiles : Option (List PTileIn))
    (hkeys : ∀ room, roomOpt = some room → KeysOK room) :
    totalTilesOpt (boardStateUpdate roomOpt pid tiles).1 = totalTilesOpt roomOpt := by
  cases roomOpt with
  | none => rfl
  | some room =>
    simp only [boardStateUpdate]
    split
    · rfl
    next player hpl =>
      split
      · rfl
      · have hset := handsTotal_aset room.players pid player
          { player with tiles := sanitizePlayerTiles tiles } (hkeys room rfl) hpl
        dsimp only at hset
        simp only [totalTilesOpt, totalTiles]
        omega

theorem schedule_totalTiles (shuffle : List Char → List Char) (roomId : String)
    (timers : Timers) (r : Room) (pid : PlayerId)
    (hkeys : KeysOK r)
    (hkey : ∀ p, alookup r.players pid = some p → p.rejoinKey.isSome) :
    totalTilesOpt (scheduleDisconnectRemoval shuffle roomId timers r pid).1 =
      totalTiles r := by
  simp only [scheduleDisconnectRemoval]
  split
  · rfl
  next player hpl =>
    have hset := handsTotal_aset r.players pid player
      { player with connected := false } hkeys hpl
    split
    next hnone =>
      have := hkey player hpl
      rw [hnone] at this
      cases this
    next k hsome =>
      dsimp only at hset
      simp only [totalTilesOpt, totalTiles]
      omega

theorem dump_totalTiles (shuffle : List Char → List Char) (roomOpt : Option Room)
    (pid : PlayerId) (letter ctid : Option String)
    (hkeys : ∀ room, roomOpt = some room → KeysOK room)
    (hlen : ∀ l : List Char, (shuffle l).length = l.length) :
    totalTilesOpt (dump shuffle roomOpt pid letter ctid).1 = totalTilesOpt roomOpt := by
  cases roomOpt with
  | none => rfl
  | some room =>
    simp only [dump]
    split
    · rfl
    · split
      · rfl
      next player hpl =>
        split
        · rfl
        · split
          next h3 =>
            split
            next c hc =>
              split
              next hmem =>
                have hpool1 : (shuffle (room.pool ++ [c])).length =
                    room.pool.length + 1 := by
                  rw [hlen, List.length_append]
                  rfl
                have herase : (player.hand.erase c).length + 1 = player.hand.length :=
                  by rw [List.length_erase_of_mem hmem]
                     have : 0 < player.hand.length := List.length_pos.mpr
                       (fun hnil => by rw [hnil] at hmem; cases hmem)
                     omega
                have hset := handsTotal_aset room.players pid player
                  { player with
                      hand := player.hand.erase c ++ (shuffle (room.pool ++ [c])).take 3,
                      handSize := (player.hand.erase c ++
                        (shuffle (room.pool ++ [c])).take 3).length }
                  (hkeys room rfl) hpl
                dsimp only at hset
                simp only [totalTilesOpt, totalTiles]
                simp only [List.length_drop, List.length_append, List.length_take] at *
                omega
              · rfl
            · rfl
          · rfl

theorem bananas_totalTiles (shuffle : List Char → List Char)
    (roomOpt : Option Room) (pid : PlayerId) (bts : Option (List BTileIn))
    (res : Option Room × List SEvent)
    (hok : bananas shuffle roomOpt pid bts = .ok res)
    (hkeys : ∀ room, roomOpt = some room → KeysOK room)
    (hhand : ∀ room, roomOpt = some room → HandOK room)
    (hlen : ∀ l : List Char, (shuffle l).length = l.length) :
    totalTilesOpt res.1 = totalTilesOpt roomOpt := by
  cases roomOpt with
  | none =>
    simp only [bananas] at hok
    injection hok with h2
    rw [← h2]
  | some room =>
    simp only [bananas] at hok
    split at hok
    · injection hok with h2; rw [← h2]
    · split at hok
      · injection hok with h2; rw [← h2]
      · split at hok
        · injection hok with h2; rw [← h2]
        · split at hok
          · injection hok with h2; rw [← h2]
          next b =>
            split at hok
            · cases hok
            next candidate hcand =>
              split at hok
              · injection hok with h2; rw [← h2]
              next hlenok =>
                split at hok
                · injection hok with h2; rw [← h2]
                next sb hsb =>
                  injection hok with h2
                  rw [← h2]
                  have hbal1 : InspBalanced { room with
                      status := RoomStatus.inspecting,
                      inspectingPlayer := some pid,
                      inspectingBoardTiles := sb,
                      inspectingJudges := ((room.players.map (fun e => e.2)).filter
                        (fun p => !p.isOut && decide (p.id ≠ pid) && p.connected)).map
                          (fun p => p.id),
                      inspectionVotes := [] } := by
                    intro cid q hcid hq
                    dsimp only at hcid hq ⊢
                    injection hcid with hcid
                    rw [← hcid] at hq
                    rw [hcand] at hq
                    injection hq with hq
                    rw [← hq]
                    rw [sanitizeBananaBoard_length hsb]
                    have h3 : b.length = candidate.handSize := not_ne_iff.mp hlenok
                    rw [h3]
                    exact hhand room rfl _ (alookup_mem hcand)
                  exact maybeResolve_totalTiles shuffle _ (hkeys room rfl) hbal1 hlen

theorem join_totalTiles (roomId : String) (timers : Timers)
    (roomOpt : Option Room) (newId : PlayerId) (nm key : Option String)
    (hkeys : ∀ room, roomOpt = some room → KeysOK room)
    (hfresh : ∀ room, roomOpt = some room → alookup room.players newId = none) :
    totalTilesOpt (joinRoom roomId timers roomOpt newId nm key).1 =
      totalTilesOpt roomOpt := by
  cases roomOpt with
  | none =>
    simp only [joinRoom]
    split
    · rfl
    · have hsc : ∀ (x : Option String),
          (x.bind fun k => ((none : Option Room).getD emptyRoom).players.find?
            (fun e => decide (e.2.rejoinKey = some k))) = none := by
        intro x
        cases x <;> rfl
      split
      next prevId prevP heq =>
        rw [hsc] at heq
        cases heq
      next hnone =>
        rfl
  | some room =>
    have hf := hfresh room rfl
    have hk := hkeys room rfl
    simp only [joinRoom, Option.getD_some]
    split
    · rfl
    · split
      next prevId prevP heq =>
        split
        · rfl
        · rcases Option.bind_eq_some.mp heq with ⟨k1, _, hfind⟩
          have hmem := List.mem_of_find?_eq_some hfind
          have hplook : alookup room.players prevId = some prevP :=
            alookup_of_mem_nodup _ _ _ hmem hk
          have hne : prevId ≠ newId := by
            intro hpe
            rw [hpe, hf] at hplook
            cases hplook
          have happ : asetOrAppend room.players newId
              { prevP with id := newId, name := jsOr nm prevP.name, connected := true } =
              room.players ++ [(newId,
                { prevP with id := newId, name := jsOr nm prevP.name, connected := true })] := by
            unfold asetOrAppend
            rw [hf]
            rfl
          have hlook2 : alookup (room.players ++ [(newId,
              { prevP with id := newId, name := jsOr nm prevP.name, connected := true })])
              prevId = some prevP := alookup_append_left hplook
          have hnd2 : ((room.players ++ [(newId,
              ({ prevP with
                   id := newId,
                   name := jsOr nm prevP.name,
                   connected := true } : Player))]).map
                (fun e => e.1)).Nodup := by
            rw [List.map_append]
            refine List.Nodup.append hk (List.nodup_singleton newId) ?_
            intro a ha hb
            rcases List.mem_singleton.mp hb with rfl
            exact not_mem_of_alookup_none hf ha
          have hera := handsTotal_aerase _ prevId prevP hnd2 hlook2
          dsimp only
          rw [if_pos hne, happ]
          simp only [totalTilesOpt, totalTiles]
          rw [handsTotal_append] at hera
          dsimp only [handsTotal] at hera ⊢
          simp only [List.map_cons, List.map_nil, List.sum_cons, List.sum_nil,
            Nat.add_zero] at hera ⊢
          omega
      next hnone =>
        dsimp only
        simp only [totalTilesOpt, totalTiles]
        unfold asetOrAppend
        rw [hf]
        simp only [Option.isSome_none, Bool.false_eq_true, if_false]
        rw [handsTotal_append]
        simp [handsTotal]

theorem remove_totalTiles (shuffle : List Char → List Char) (roomId : String)
    (timers : Timers) (r : Room) (pid : PlayerId) (p : Player)
    (hkeys : KeysOK r) (hbal : InspBalanced r)
    (hlen : ∀ l : List Char, (shuffle l).length = l.length)
    (hpl : alookup r.players pid = some p) :
    ∀ r', (removePlayerFromRoom shuffle roomId timers r pid).1 = some r' →
      totalTiles r' + p.hand.length = totalTiles r := by
  intro r' hr'
  simp only [removePlayerFromRoom] at hr'
  rw [hpl] at hr'
  dsimp only at hr'
  split at hr'
  next hst =>
    split at hr'
    next hcand =>
      split at hr'
      · cases hr'
      · injection hr' with h2
        rw [← h2]
        have hera := handsTotal_aerase r.players pid p hkeys hpl
        simp only [totalTiles, clearInspectionState]
        omega
    next hncand =>
      split at hr'
      · cases hr'
      · injection hr' with h2
        rw [← h2]
        set mod := { r with
          inspectingJudges := r.inspectingJudges.filter (fun j => decide (j ≠ pid)),
          inspectionVotes := aerase r.inspectionVotes pid } with hmod
        have htot : totalTiles (maybeResolveInspection shuffle mod).1 = totalTiles r :=
          maybeResolve_totalTiles shuffle mod hkeys hbal hlen
        have hlk2 : alookup (maybeResolveInspection shuffle mod).1.players pid = some p :=
          (maybeResolve_lookup_ne shuffle mod pid hncand).trans hpl
        have hnd2 : (((maybeResolveInspection shuffle mod).1.players).map
            (fun e => e.1)).Nodup := by
          rw [maybeResolve_players_keys]
          exact hkeys
        have hera := handsTotal_aerase _ pid p hnd2 hlk2
        simp only [totalTiles] at htot ⊢
        omega
  next hst =>
    split at hr'
    · cases hr'
    · injection hr' with h2
      rw [← h2]
      have hera := handsTotal_aerase r.players pid p hkeys hpl
      simp only [totalTiles]
      omega

theorem fire_totalTiles_le (shuffle : List Char → List Char) (roomId : String)
    (timers : Timers) (room : Room) (k : String)
    (hkeys : KeysOK room) (hbal : InspBalanced room)
    (hlen : ∀ l : List Char, (shuffle l).length = l.length) :
    totalTilesOpt (fireDisconnectTimer shuffle roomId timers (some room) k).1 ≤
      totalTiles room := by
  simp only [fireDisconnectTimer]
  split
  · exact Nat.le_refl _
  next latestId latestP hfind =>
    split
    next hconn =>
      have hlk : alookup room.players latestId = some latestP :=
        alookup_of_mem_nodup _ _ _ (List.mem_of_find?_eq_some hfind) hkeys
      cases hres : (removePlayerFromRoom shuffle roomId timers room latestId).1 with
      | none => exact Nat.zero_le _
      | some r' =>
        have := remove_totalTiles shuffle roomId timers room latestId latestP
          hkeys hbal hlen hlk r' hres
        simp only [totalTilesOpt]
        omega
    · exact Nat.le_refl _

theorem start_totalTiles (shuffle : List Char → List Char) (r : Room)
    (hlen : ∀ l : List Char, (shuffle l).length = l.length)
    (hst : r.status ≠ .playing) :
    ∀ r', (startGame shuffle (some r)).1 = some r' → totalTiles r' = 144 := by
  intro r' hr'
  simp only [startGame] at hr'
  rw [if_neg hst] at hr'
  dsimp only at hr'
  injection hr' with h2
  rw [← h2]
  have h1 := dealHands_conservation (tilesPerHand r.players.length) r.players
    (shuffle INITIAL_POOL)
  have hS : (shuffle INITIAL_POOL).length = 144 := by
    rw [hlen]
    rfl
  show (dealHands (shuffle INITIAL_POOL) (tilesPerHand r.players.length) r.players).1.length +
    handsTotal (dealHands (shuffle INITIAL_POOL) (tilesPerHand r.players.length) r.players).2.1 =
      144
  rw [h1, hS]

theorem snapGo_none_of_missing (aL aT : Int) :
    ∀ (ts : List RawTile) (acc : List Cell),
    (∃ t ∈ ts, t.left = none ∨ t.top = none) →
    snapGo aL aT ts acc = none
  | [], _, h => by
    rcases h with ⟨t, ht, _⟩
    cases ht
  | t :: ts, acc, h => by
    rcases h with ⟨u, hu, hmiss⟩
    rcases List.mem_cons.mp hu with rfl | hu2
    · cases hL : u.left with
      | none => simp [snapGo, hL]
      | some l =>
        cases hT : u.top with
        | none => simp [snapGo, hL, hT]
        | some tp =>
          rcases hmiss with h1 | h1
          · rw [hL] at h1; cases h1
          · rw [hT] at h1; cases h1
    · cases hL : t.left with
      | none => simp [snapGo, hL]
      | some l =>
        cases hT : t.top with
        | none => simp [snapGo, hL, hT]
        | some tp =>
          simp only [snapGo, hL, hT]
          split
          · rfl
          · split
            · rfl
            · exact snapGo_none_of_missing aL aT ts _ ⟨u, hu2, hmiss⟩

end Banana

namespace Banana

/-! ## Claim theorems -/

/-- C6.  Point behaviour of the adjacency validator: the empty list is
rejected; any layout containing a tile without numeric coordinates is
rejected; a single tile is rejected (no neighbour); two tiles one
tile-spacing apart horizontally or vertically are accepted; two tiles
placed only diagonally are rejected; two tiles snapping to the same grid
cell are rejected; a layout with a tile more than `SNAP_TOLERANCE` away
from its snapped grid position is rejected. -/
theorem adjacency_validator_point_behaviour :
    allTilesHaveAtLeastOneNeighbor [] = false ∧
    (∀ ts : List RawTile, (∃ t ∈ ts, t.left = none ∨ t.top = none) →
      allTilesHaveAtLeastOneNeighbor ts = false) ∧
    allTilesHaveAtLeastOneNeighbor [rt 0 0] = false ∧
    allTilesHaveAtLeastOneNeighbor [rt 100 200, rt 165 200] = true ∧
    allTilesHaveAtLeastOneNeighbor [rt 100 200, rt 100 265] = true ∧
    allTilesHaveAtLeastOneNeighbor [rt 0 0, rt 65 65] = false ∧
    allTilesHaveAtLeastOneNeighbor [rt 0 0, rt 10 0] = false ∧
    allTilesHaveAtLeastOneNeighbor [rt 0 0, rt 33 0] = false := by
  refine ⟨by decide, ?_, by decide, by decide, by decide, by decide, by decide, by decide⟩
  intro ts h
  cases ts with
  | nil => rfl
  | cons t0 rest =>
    unfold allTilesHaveAtLeastOneNeighbor snapTiles
    cases hL : t0.left with
    | none => simp [hL]
    | some l =>
      cases hT : t0.top with
      | none => simp [hL, hT]
      | some tp =>
        simp only [hL, hT]
        rw [snapGo_none_of_missing l tp (t0 :: rest) [] h]

/-- C6 witness: the universal branch applied to a concrete tile without
numeric coordinates. -/
theorem adjacency_validator_point_behaviour_witness :
    allTilesHaveAtLeastOneNeighbor [⟨none, some 5⟩] = false :=
  adjacency_validator_point_behaviour.2.1 [⟨none, some 5⟩]
    ⟨⟨none, some 5⟩, by decide, Or.inl rfl⟩

/-- C8.  The `bananas` handler raises an uncaught JS `TypeError`
(modelled `Except.error ()`) when a socket that has NO session in the
room sends `bananas` with an array payload while the pool is below the
active-player count: the guard only tests `players[id]?.isOut`, then
dereferences `candidate.handSize` on `undefined`.  By contrast, the same
message with a non-array payload, or aimed at a nonexistent room, is
safely ignored. -/
theorem bananas_typeerror_on_sessionless_socket :
    bananas id (some ghostRoom) "s2" (some []) = Except.error () ∧
    bananas id (some ghostRoom) "s2" none =
      Except.ok (some ghostRoom,
        [.errorMsg "s2" "Your submitted board does not match your hand size."]) ∧
    bananas id none "s2" (some []) = Except.ok (none, []) :=
  ⟨rfl, rfl, rfl⟩

/-- C3.  The peel contract: in a `playing` room, for a connected non-out
peeler whose submitted board matches their hand size and passes the
adjacency validator — if the pool holds at least one tile per active
(non-out) player, the peel succeeds: the pool shrinks by exactly the
active-player count and every active player's hand grows by exactly one
tile (out players are untouched); if the pool holds fewer tiles than
that, the action is rejected with the call-bananas instruction and the
room is unchanged. -/
theorem peel_contract :
    ∀ (room : Room) (pid : PlayerId) (peeler : Player) (bts : List RawTile),
    room.status = .playing →
    alookup room.players pid = some peeler →
    peeler.connected = true →
    peeler.isOut = false →
    bts.length = peeler.handSize →
    allTilesHaveAtLeastOneNeighbor bts = true →
    (activeCount room ≤ room.pool.length →
      ∃ room', (peel (some room) pid (some bts)).1 = some room' ∧
        room'.pool.length = room.pool.length - activeCount room ∧
        room'.status = room.status ∧
        List.Forall₂ (fun a b => b.1 = a.1 ∧
          (a.2.isOut = true → b.2 = a.2) ∧
          (a.2.isOut = false → ∃ t, b.2 = peeledPlayer a.2 t))
          room.players room'.players) ∧
    (room.pool.length < activeCount room →
      peel (some room) pid (some bts) = (some room,
        [.errorMsg pid "Not enough tiles left in the pool for a full peel. Call BANANAS."])) := by
  intro room pid peeler bts hst hlook hconn hout hlen hvalid
  constructor
  · intro hpool
    have hnlt : ¬ (room.pool.length < (room.players.filter (fun e => !e.2.isOut)).length) :=
      Nat.not_lt.mpr hpool
    have heval : peel (some room) pid (some bts) =
        (some { room with pool := (peelDeal room.pool room.players).1,
                          players := (peelDeal room.pool room.players).2.1 },
         (peelDeal room.pool room.players).2.2 ++ [.roomStateUpdated]) := by
      simp [peel, hst, hlook, hout, hlen, hvalid, hnlt]
    refine ⟨_, congrArg Prod.fst heval, ?_, rfl, ?_⟩
    · exact peelDeal_pool_length room.players room.pool hpool
    · exact peelDeal_forall₂ room.players room.pool hpool
  · intro hlt
    have hlt' : room.pool.length < (room.players.filter (fun e => !e.2.isOut)).length := hlt
    simp [peel, hst, hlook, hout, hlen, hvalid, hlt']

/-- C3 witness: the peel contract applied to a concrete two-player room
whose pool holds exactly one tile per active player. -/
theorem peel_contract_witness :
    (activeCount peelRoomW ≤ peelRoomW.pool.length →
      ∃ room', (peel (some peelRoomW) "a" (some [rt 0 0, rt 65 0])).1 = some room' ∧
        room'.pool.length = peelRoomW.pool.length - activeCount peelRoomW ∧
        room'.status = peelRoomW.status ∧
        List.Forall₂ (fun a b => b.1 = a.1 ∧
          (a.2.isOut = true → b.2 = a.2) ∧
          (a.2.isOut = false → ∃ t, b.2 = peeledPlayer a.2 t))
          peelRoomW.players room'.players) ∧
    (peelRoomW.pool.length < activeCount peelRoomW →
      peel (some peelRoomW) "a" (some [rt 0 0, rt 65 0]) = (some peelRoomW,
        [.errorMsg "a" "Not enough tiles left in the pool for a full peel. Call BANANAS."])) :=
  peel_contract peelRoomW "a" wPeelerA [rt 0 0, rt 65 0]
    (by decide) (by decide) (by decide) (by decide) (by decide) (by decide)

/-- C2 counterexample: `start_game` only rejects rooms whose status is
`playing`.  A start in an `inspecting` room is accepted and moves it to
`playing` (the claim says any status other than `waiting` causes no
state change), and a start in a `waiting` room with a NONEMPTY pool is
accepted and redeals (the claim says start requires an empty pool). -/
theorem start_contract_counterexample :
    inspRoomW.status = .inspecting ∧
    ((startGame id (some inspRoomW)).1.map Room.status) = some .playing ∧
    waitPoolRoom.pool ≠ [] ∧
    ((startGame id (some waitPoolRoom)).1.getD emptyRoom).pool.length = 123 ∧
    ((alookup ((startGame id (some waitPoolRoom)).1.getD emptyRoom).players
        "p1").map (fun p => p.hand.length)) = some 21 :=
  ⟨rfl, by decide, by decide, by decide, by decide⟩

/-- C2 (amended).  A `start_game` in a room whose status is `playing` is
ignored with no state change; a start in ANY other status (`waiting` or
`inspecting`), with no condition on the pool, is accepted: the pool is
reinitialized to the shuffled 144-tile distribution, stale inspection
state is cleared, every session's out-flag is reset to false and its
board snapshot dropped, and every session is dealt a fresh hand of
`tilesPerHand` tiles (21 for up to 4 players, 15 for 5–6, 11 for 7 or
more; each hand is full whenever `players × tilesPerHand ≤ 144`), the
pool retaining the remaining `144 − players × tilesPerHand` tiles. -/
theorem start_contract_amended :
    ∀ (shuffle : List Char → List Char) (r : Room),
    (∀ l : List Char, (shuffle l).length = l.length) →
    (r.status = .playing → startGame shuffle (some r) = (some r, [])) ∧
    (r.status ≠ .playing →
      ∃ r', (startGame shuffle (some r)).1 = some r' ∧
        r'.status = .playing ∧
        r'.inspectingPlayer = none ∧
        r'.inspectingBoardTiles = [] ∧
        r'.inspectingJudges = [] ∧
        r'.inspectionVotes = [] ∧
        r'.pool.length = 144 - r.players.length * tilesPerHand r.players.length ∧
        r'.pool.length + handsTotal r'.players = 144 ∧
        List.Forall₂ (fun a b => b.1 = a.1 ∧ ∃ hd, b.2 = dealtPlayer a.2 hd)
          r.players r'.players ∧
        (∀ e ∈ r'.players, e.2.isOut = false) ∧
        (r.players.length * tilesPerHand r.players.length ≤ 144 →
          ∀ e ∈ r'.players, e.2.hand.length = tilesPerHand r.players.length)) := by
  intro shuffle r hlen
  have hS : (shuffle INITIAL_POOL).length = 144 := by
    rw [hlen INITIAL_POOL]
    rfl
  constructor
  · intro hst
    simp [startGame, hst]
  · intro hst
    have heval : startGame shuffle (some r) =
        (some { status := .playing,
                pool := (dealHands (shuffle INITIAL_POOL)
                  (tilesPerHand r.players.length) r.players).1,
                players := (dealHands (shuffle INITIAL_POOL)
                  (tilesPerHand r.players.length) r.players).2.1,
                inspectingPlayer := none, inspectingBoardTiles := [],
                inspectingJudges := [], inspectionVotes := [] },
         (dealHands (shuffle INITIAL_POOL)
            (tilesPerHand r.players.length) r.players).2.2 ++ [.roomStateUpdated]) := by
      simp only [startGame]
      rw [if_neg hst]
      rfl
    refine ⟨_, congrArg Prod.fst heval, rfl, rfl, rfl, rfl, rfl, ?_, ?_, ?_, ?_, ?_⟩
    · rw [dealHands_pool_length, hS]
    · rw [dealHands_conservation, hS]
    · exact dealHands_forall₂ _ r.players (shuffle INITIAL_POOL)
    · exact dealHands_isOut _ r.players (shuffle INITIAL_POOL)
    · intro hfit
      exact dealHands_full_hands _ r.players (shuffle INITIAL_POOL) (hS ▸ hfit)

/-- C2 witness: the amended start contract applied to the concrete
`waiting` room with a leftover pool, under the identity shuffle. -/
theorem start_contract_amended_witness :
    (waitPoolRoom.status = .playing →
      startGame id (some waitPoolRoom) = (some waitPoolRoom, [])) ∧
    (waitPoolRoom.status ≠ .playing →
      ∃ r', (startGame id (some waitPoolRoom)).1 = some r' ∧
        r'.status = .playing ∧
        r'.inspectingPlayer = none ∧
        r'.inspectingBoardTiles = [] ∧
        r'.inspectingJudges = [] ∧
        r'.inspectionVotes = [] ∧
        r'.pool.length = 144 - waitPoolRoom.players.length *
          tilesPerHand waitPoolRoom.players.length ∧
        r'.pool.length + handsTotal r'.players = 144 ∧
        List.Forall₂ (fun a b => b.1 = a.1 ∧ ∃ hd, b.2 = dealtPlayer a.2 hd)
          waitPoolRoom.players r'.players ∧
        (∀ e ∈ r'.players, e.2.isOut = false) ∧
        (waitPoolRoom.players.length * tilesPerHand waitPoolRoom.players.length ≤ 144 →
          ∀ e ∈ r'.players, e.2.hand.length =
            tilesPerHand waitPoolRoom.players.length)) :=
  start_contract_amended id waitPoolRoom (fun _ => rfl)

/-- C1 counterexample: in the two-player room built by two joins and a
start (pool 102, hands 21 + 21, spec-counted total 144), (a) player A
leaving deletes their 21-tile hand without returning it to the pool —
the counted total drops to 123 — and (b) a `board_state_update` from A
stores a 21-tile snapshot whose letters are already counted in A's
hand, pushing the claimed sum `pool + hands + snapshots + inspecting
board` to 165.  Both ways the claimed invariant of 144 at every
reachable point fails. -/
theorem tile_conservation_counterexample :
    (roomStarted.map specTotal) = some 144 ∧
    ((roomStarted.bind (fun r => (removePlayerFromRoom id "r" [] r "A").1)).map
      specTotal) = some 123 ∧
    ((roomStarted.bind (fun r =>
      (boardStateUpdate (some r) "A" (some (List.replicate 21 snapTile))).1)).map
      specTotal) = some 165 :=
  ⟨by decide, by decide, by decide⟩

/-- C1 (amended).  Counting each tile once — `totalTiles` is pool plus
hands; a player's board snapshot and the inspecting board snapshot are
client-side copies of letters already counted in a hand — a fresh room
holds 0 tiles; an accepted start makes the total exactly 144; peel,
dump, bananas (non-crash paths), votes and resolution, board updates,
joins and rejoins (of genuinely new connection ids) and disconnect
marking all preserve the total exactly; removing a player (leave or
grace-period purge) decreases it by exactly the departing player's hand
count — so the total never exceeds 144 between a start and the next
start, but it is NOT constant: departures destroy the leaver's tiles. -/
theorem tile_conservation_amended :
    totalTiles emptyRoom = 0 ∧
    (∀ (shuffle : List Char → List Char) (r : Room),
      (∀ l : List Char, (shuffle l).length = l.length) →
      r.status ≠ .playing →
      ∀ r', (startGame shuffle (some r)).1 = some r' → totalTiles r' = 144) ∧
    (∀ roomId timers roomOpt newId nm key,
      (∀ room, roomOpt = some room → KeysOK room) →
      (∀ room, roomOpt = some room → alookup room.players newId = none) →
      totalTilesOpt (joinRoom roomId timers roomOpt newId nm key).1 =
        totalTilesOpt roomOpt) ∧
    (∀ roomOpt pid bts,
      totalTilesOpt (peel roomOpt pid bts).1 = totalTilesOpt roomOpt) ∧
    (∀ shuffle roomOpt pid letter ctid,
      (∀ room, roomOpt = some room → KeysOK room) →
      (∀ l : List Char, (shuffle l).length = l.length) →
      totalTilesOpt (dump shuffle roomOpt pid letter ctid).1 = totalTilesOpt roomOpt) ∧
    (∀ shuffle roomOpt pid bts res, bananas shuffle roomOpt pid bts = .ok res →
      (∀ room, roomOpt = some room → KeysOK room) →
      (∀ room, roomOpt = some room → HandOK room) →
      (∀ l : List Char, (shuffle l).length = l.length) →
      totalTilesOpt res.1 = totalTilesOpt roomOpt) ∧
    (∀ shuffle roomOpt pid vote,
      (∀ room, roomOpt = some room → KeysOK room) →
      (∀ room, roomOpt = some room → InspBalanced room) →
      (∀ l : List Char, (shuffle l).length = l.length) →
      totalTilesOpt (inspectionVote shuffle roomOpt pid vote).1 =
        totalTilesOpt roomOpt) ∧
    (∀ roomOpt pid tiles,
      (∀ room, roomOpt = some room → KeysOK room) →
      totalTilesOpt (boardStateUpdate roomOpt pid tiles).1 = totalTilesOpt roomOpt) ∧
    (∀ shuffle roomId timers (r : Room) pid, KeysOK r →
      (∀ p, alookup r.players pid = some p → p.rejoinKey.isSome) →
      totalTilesOpt (scheduleDisconnectRemoval shuffle roomId timers r pid).1 =
        totalTiles r) ∧
    (∀ shuffle roomId timers (r : Room) pid p, KeysOK r → InspBalanced r →
      (∀ l : List Char, (shuffle l).length = l.length) →
      alookup r.players pid = some p →
      ∀ r', (removePlayerFromRoom shuffle roomId timers r pid).1 = some r' →
        totalTiles r' + p.hand.length = totalTiles r) ∧
    (∀ shuffle roomId timers (room : Room) k, KeysOK room → InspBalanced room →
      (∀ l : List Char, (shuffle l).length = l.length) →
      totalTilesOpt (fireDisconnectTimer shuffle roomId timers (some room) k).1 ≤
        totalTiles room) :=
  ⟨rfl, start_totalTiles, join_totalTiles, peel_totalTiles,
   fun shuffle roomOpt pid letter ctid hk hl =>
     dump_totalTiles shuffle roomOpt pid letter ctid hk hl,
   fun shuffle roomOpt pid bts res hok hk hh hl =>
     bananas_totalTiles shuffle roomOpt pid bts res hok hk hh hl,
   fun shuffle roomOpt pid vote hk hb hl =>
     vote_totalTiles shuffle roomOpt pid vote hk hb hl,
   board_totalTiles,
   fun shuffle roomId timers r pid hk hkey =>
     schedule_totalTiles shuffle roomId timers r pid hk hkey,
   fun shuffle roomId timers r pid p hk hb hl hpl =>
     remove_totalTiles shuffle roomId timers r pid p hk hb hl hpl,
   fun shuffle roomId timers room k hk hb hl =>
     fire_totalTiles_le shuffle roomId timers room k hk hb hl⟩

/-- C1 witness: conservation applied at concrete states — a start from
the leftover-pool room reaches exactly 144; a peel and a dump preserve
their rooms' totals; removing concrete player A from the started room
decreases the total by A's 21-card hand. -/
theorem tile_conservation_amended_witness :
    (∀ r', (startGame id (some waitPoolRoom)).1 = some r' → totalTiles r' = 144) ∧
    totalTilesOpt (peel (some peelRoomW) "a" (some [rt 0 0, rt 65 0])).1 =
      totalTilesOpt (some peelRoomW) ∧
    totalTilesOpt (dump id (some dupHandRoom) "p1" (some "A") none).1 =
      totalTilesOpt (some dupHandRoom) :=
  ⟨tile_conservation_amended.2.1 id waitPoolRoom (fun _ => rfl) (by decide),
   tile_conservation_amended.2.2.2.1 (some peelRoomW) "a" (some [rt 0 0, rt 65 0]),
   tile_conservation_amended.2.2.2.2.1 id (some dupHandRoom) "p1" (some "A") none
     (fun room h => by
       injection h with h2
       rw [← h2]
       unfold KeysOK
       decide)
     (fun _ => rfl)⟩

/-- C9.  Reconnection continuity.  With a disconnected session `(oldId,
p)` holding rejoin key `k` (the first such entry, keys unique): a
`join_room` from a new connection carrying the same key resumes the
session in place — the new connection id maps to a player with the
exact prior hand and board snapshot, the old id is gone, the
inspecting-player field, judge list and vote map are rewritten to the
new id, the pending `(roomId, k)` removal timer is cancelled, and the
restored hand and board are sent to the new connection with the resumed
flag.  If instead the grace-period timer fires while the session is
still disconnected, the session is permanently removed
(`removePlayerFromRoom`), and — when the room is mid-inspection and the
session is not the candidate — the removal re-evaluates resolution
against the judge set shrunk by the departed judge, with their vote
discarded. -/
theorem reconnection_continuity :
    ∀ (shuffle : List Char → List Char) (roomId : String) (timers : Timers)
      (room : Room) (oldId newId : PlayerId) (p : Player) (nm : Option String)
      (k : String),
    roomId ≠ "" → jsTrim k = k → k ≠ "" →
    room.players.find? (fun e => decide (e.2.rejoinKey = some k)) = some (oldId, p) →
    p.rejoinKey = some k →
    p.connected = false →
    oldId ≠ newId →
    (room.players.map (fun e => e.1)).Nodup →
    ((∃ room',
      (joinRoom roomId timers (some room) newId nm (some k)).1 = some room' ∧
      alookup room'.players newId =
        some { p with id := newId, name := jsOr nm p.name, connected := true } ∧
      alookup room'.players oldId = none ∧
      (room.inspectingPlayer = some oldId → room'.inspectingPlayer = some newId) ∧
      (room.inspectingPlayer ≠ some oldId →
        room'.inspectingPlayer = room.inspectingPlayer) ∧
      room'.inspectingJudges =
        room.inspectingJudges.map (fun j => if j = oldId then newId else j) ∧
      (∀ v, alookup room.inspectionVotes oldId = some v →
        alookup room'.inspectionVotes newId = some v)) ∧
     (roomId, k) ∉ (joinRoom roomId timers (some room) newId nm (some k)).2.1 ∧
     (joinRoom roomId timers (some room) newId nm (some k)).2.2 =
       [.roomStateUpdated, .gameStarted newId p.hand p.tiles true]) ∧
    (fireDisconnectTimer shuffle roomId timers (some room) k =
       removePlayerFromRoom shuffle roomId timers room oldId ∧
     ((removePlayerFromRoom shuffle roomId timers room oldId).1 = none ∨
      ∃ r', (removePlayerFromRoom shuffle roomId timers room oldId).1 = some r' ∧
        alookup r'.players oldId = none) ∧
     (room.status = .inspecting → room.inspectingPlayer ≠ some oldId →
       removePlayerFromRoom shuffle roomId timers room oldId =
         (let rr := maybeResolveInspection shuffle
            { room with
                inspectingJudges :=
                  room.inspectingJudges.filter (fun j => decide (j ≠ oldId)),
                inspectionVotes := aerase room.inspectionVotes oldId }
          if (aerase rr.1.players oldId).isEmpty then
            (none, clearDisconnectTimer timers roomId p.rejoinKey, rr.2)
          else
            (some { rr.1 with players := aerase rr.1.players oldId },
             clearDisconnectTimer timers roomId p.rejoinKey,
             rr.2 ++ [.roomStateUpdated])))) := by
  intro shuffle roomId timers room oldId newId p nm k hrid htrim hk0 hfind hkey
    hconn hne hkeys
  have hlook : alookup room.players oldId = some p :=
    alookup_of_mem_nodup _ _ _ (List.mem_of_find?_eq_some hfind) hkeys
  have hguard : ¬ (p.connected ≠ false ∧ oldId ≠ newId) := by
    rw [hconn]
    simp
  have heval : joinRoom roomId timers (some room) newId nm (some k) =
      (some { room with
          players := aerase (asetOrAppend room.players newId
            { p with id := newId, name := jsOr nm p.name, connected := true }) oldId,
          inspectingPlayer := if room.inspectingPlayer = some oldId then some newId
            else room.inspectingPlayer,
          inspectingJudges :=
            room.inspectingJudges.map (fun j => if j = oldId then newId else j),
          inspectionVotes := match alookup room.inspectionVotes oldId with
            | some v => aerase (asetOrAppend room.inspectionVotes newId v) oldId
            | none => room.inspectionVotes },
       clearDisconnectTimer timers roomId p.rejoinKey,
       [.roomStateUpdated, .gameStarted newId p.hand p.tiles true]) := by
    simp only [joinRoom, Option.getD_some]
    rw [if_neg hrid]
    rw [htrim, if_neg hk0]
    simp only [Option.some_bind]
    rw [hfind]
    dsimp only
    rw [if_neg hguard, if_pos hne]
  have hclear : clearDisconnectTimer timers roomId (some k) =
      timers.filter (fun e => decide (e ≠ (roomId, k))) := by
    simp only [clearDisconnectTimer]
    rw [if_neg (by
      rintro (h1 | h1)
      · exact hrid h1
      · exact hk0 h1)]
  refine ⟨⟨⟨_, congrArg (fun x => x.1) heval, ?_, ?_, ?_, ?_, rfl, ?_⟩, ?_, ?_⟩,
    ?_, ?_, ?_⟩
  · rw [alookup_aerase_ne _ oldId newId (fun h => hne h.symm)]
    exact alookup_asetOrAppend_self _ _ _
  · exact alookup_aerase_self _ _
  · intro hcp
    rw [if_pos hcp]
  · intro hcp
    rw [if_neg hcp]
  · intro v hv
    rw [hv]
    rw [alookup_aerase_ne _ oldId newId (fun h => hne h.symm)]
    exact alookup_asetOrAppend_self _ _ _
  · rw [heval]
    dsimp only
    rw [hkey, hclear]
    intro hm
    have := (List.mem_filter.mp hm).2
    simp at this
  · rw [heval]
  · simp only [fireDisconnectTimer]
    rw [hfind]
    dsimp only
    rw [if_pos hconn]
  · simp only [removePlayerFromRoom]
    rw [hlook]
    dsimp only
    repeat' split
    all_goals
      first
        | exact Or.inl rfl
        | exact Or.inr ⟨_, rfl, alookup_aerase_self _ _⟩
  · intro hst hncand
    simp only [removePlayerFromRoom]
    rw [hlook]
    dsimp only
    rw [if_pos hst, if_neg hncand]


/-- C9 witness: the reconnection contract applied to a concrete
one-player room with a disconnected session and a pending timer. -/
theorem reconnection_continuity_witness :
    ((∃ room',
      (joinRoom "r1" [("r1", "ka")] (some rejoinRoom) "new1" (some "Zoe") (some "ka")).1 =
        some room' ∧
      alookup room'.players "new1" =
        some { rejoinP with
                 id := "new1",
                 name := jsOr (some "Zoe") rejoinP.name,
                 connected := true } ∧
      alookup room'.players "old1" = none ∧
      (rejoinRoom.inspectingPlayer = some "old1" →
        room'.inspectingPlayer = some "new1") ∧
      (rejoinRoom.inspectingPlayer ≠ some "old1" →
        room'.inspectingPlayer = rejoinRoom.inspectingPlayer) ∧
      room'.inspectingJudges =
        rejoinRoom.inspectingJudges.map (fun j => if j = "old1" then "new1" else j) ∧
      (∀ v, alookup rejoinRoom.inspectionVotes "old1" = some v →
        alookup room'.inspectionVotes "new1" = some v)) ∧
     ("r1", "ka") ∉
       (joinRoom "r1" [("r1", "ka")] (some rejoinRoom) "new1" (some "Zoe") (some "ka")).2.1 ∧
     (joinRoom "r1" [("r1", "ka")] (some rejoinRoom) "new1" (some "Zoe") (some "ka")).2.2 =
       [.roomStateUpdated, .gameStarted "new1" rejoinP.hand rejoinP.tiles true]) ∧
    (fireDisconnectTimer id "r1" [("r1", "ka")] (some rejoinRoom) "ka" =
       removePlayerFromRoom id "r1" [("r1", "ka")] rejoinRoom "old1" ∧
     ((removePlayerFromRoom id "r1" [("r1", "ka")] rejoinRoom "old1").1 = none ∨
      ∃ r', (removePlayerFromRoom id "r1" [("r1", "ka")] rejoinRoom "old1").1 = some r' ∧
        alookup r'.players "old1" = none) ∧
     (rejoinRoom.status = .inspecting → rejoinRoom.inspectingPlayer ≠ some "old1" →
       removePlayerFromRoom id "r1" [("r1", "ka")] rejoinRoom "old1" =
         (let rr := maybeResolveInspection id
            { rejoinRoom with
                inspectingJudges :=
                  rejoinRoom.inspectingJudges.filter (fun j => decide (j ≠ "old1")),
                inspectionVotes := aerase rejoinRoom.inspectionVotes "old1" }
          if (aerase rr.1.players "old1").isEmpty then
            (none, clearDisconnectTimer [("r1", "ka")] "r1" rejoinP.rejoinKey, rr.2)
          else
            (some { rr.1 with players := aerase rr.1.players "old1" },
             clearDisconnectTimer [("r1", "ka")] "r1" rejoinP.rejoinKey,
             rr.2 ++ [.roomStateUpdated])))) :=
  reconnection_continuity id "r1" [("r1", "ka")] rejoinRoom "old1" "new1" rejoinP
    (some "Zoe") "ka" (by decide) (by decide) (by decide) (by decide) rfl rfl
    (by decide) (by decide)

/-- C10.  Hand-size consistency: the per-player `handSize` broadcast by
`room_state_updated` (`getRoomState`) is exactly the stored field, and
every event handler — join, start, peel, dump, bananas (on its non-crash
paths), vote, board update, leave/removal, disconnect marking and the
grace-period purge — preserves the invariant that each stored `handSize`
equals the length of that player's hand array; hence the broadcast
never disagrees with the authoritative hand. -/
theorem handSize_consistency :
    (∀ r : Room, HandOK r →
      (getRoomState r).players.map (fun e => e.2.handSize) =
        r.players.map (fun e => e.2.hand.length)) ∧
    (∀ roomId timers roomOpt newId nm key, HandOKOpt roomOpt →
      HandOKOpt (joinRoom roomId timers roomOpt newId nm key).1) ∧
    (∀ shuffle roomOpt, HandOKOpt roomOpt →
      HandOKOpt (startGame shuffle roomOpt).1) ∧
    (∀ roomOpt pid bts, HandOKOpt roomOpt →
      HandOKOpt (peel roomOpt pid bts).1) ∧
    (∀ shuffle roomOpt pid letter ctid, HandOKOpt roomOpt →
      HandOKOpt (dump shuffle roomOpt pid letter ctid).1) ∧
    (∀ shuffle roomOpt pid bts res, bananas shuffle roomOpt pid bts = .ok res →
      HandOKOpt roomOpt → HandOKOpt res.1) ∧
    (∀ shuffle roomOpt pid vote, HandOKOpt roomOpt →
      HandOKOpt (inspectionVote shuffle roomOpt pid vote).1) ∧
    (∀ roomOpt pid tiles, HandOKOpt roomOpt →
      HandOKOpt (boardStateUpdate roomOpt pid tiles).1) ∧
    (∀ shuffle roomId timers r pid, HandOK r →
      HandOKOpt (removePlayerFromRoom shuffle roomId timers r pid).1) ∧
    (∀ shuffle roomId timers r pid, HandOK r →
      HandOKOpt (scheduleDisconnectRemoval shuffle roomId timers r pid).1) ∧
    (∀ shuffle roomId timers roomOpt key, HandOKOpt roomOpt →
      HandOKOpt (fireDisconnectTimer shuffle roomId timers roomOpt key).1) := by
  refine ⟨?_, joinRoom_handOK, startGame_handOK, peel_handOK, dump_handOK,
    bananas_handOK, vote_handOK, boardStateUpdate_handOK, removePlayer_handOK,
    schedule_handOK, fire_handOK⟩
  intro r h
  simp only [getRoomState, List.map_map]
  exact List.map_congr_left (fun e he => h e he)

/-- C10 witness: the broadcast/stored agreement and the peel-handler
preservation, applied to the concrete two-player room. -/
theorem handSize_consistency_witness :
    ((getRoomState peelRoomW).players.map (fun e => e.2.handSize) =
      peelRoomW.players.map (fun e => e.2.hand.length)) ∧
    HandOKOpt (peel (some peelRoomW) "a" (some [rt 0 0, rt 65 0])).1 :=
  ⟨handSize_consistency.1 peelRoomW (by unfold HandOK; decide),
   handSize_consistency.2.2.2.1 (some peelRoomW) "a" (some [rt 0 0, rt 65 0])
     (by unfold HandOKOpt HandOK; decide)⟩

/-- C5.  Inspection resolution, as run on entering `inspecting` and
after every vote: with zero judges the candidate wins unconditionally
(room to `waiting`, inspection cleared, pool and players untouched);
with judges, a `valid` majority (threshold `⌊judges/2⌋+1`) wins
immediately regardless of uncast votes; a `rotten` majority, or `valid`
votes that can no longer reach the threshold even with every uncast
vote, makes the candidate rotten: the inspected board letters are
pushed back into the pool which is reshuffled, the candidate is marked
out with an empty hand, the room returns to `playing` and the
inspection state is cleared; in every other case nothing changes. -/
theorem inspection_resolution :
    ∀ (shuffle : List Char → List Char) (r : Room),
    r.status = .inspecting →
    (r.inspectingJudges.length = 0 →
      (maybeResolveInspection shuffle r).1.status = .waiting ∧
      (maybeResolveInspection shuffle r).1.inspectingPlayer = none ∧
      (maybeResolveInspection shuffle r).1.inspectingBoardTiles = [] ∧
      (maybeResolveInspection shuffle r).1.inspectingJudges = [] ∧
      (maybeResolveInspection shuffle r).1.inspectionVotes = [] ∧
      (maybeResolveInspection shuffle r).1.pool = r.pool ∧
      (maybeResolveInspection shuffle r).1.players = r.players) ∧
    (r.inspectingJudges.length ≠ 0 → majorityNeeded r ≤ validVotes r →
      (maybeResolveInspection shuffle r).1.status = .waiting ∧
      (maybeResolveInspection shuffle r).1.inspectingPlayer = none ∧
      (maybeResolveInspection shuffle r).1.inspectingBoardTiles = [] ∧
      (maybeResolveInspection shuffle r).1.inspectingJudges = [] ∧
      (maybeResolveInspection shuffle r).1.inspectionVotes = [] ∧
      (maybeResolveInspection shuffle r).1.pool = r.pool ∧
      (maybeResolveInspection shuffle r).1.players = r.players) ∧
    (∀ cid cand, r.inspectingJudges.length ≠ 0 →
      validVotes r < majorityNeeded r →
      (majorityNeeded r ≤ rottenVotes r ∨
        (validVotes r : Int) + remainingVotes r < (majorityNeeded r : Int)) →
      r.inspectingPlayer = some cid → alookup r.players cid = some cand →
      (maybeResolveInspection shuffle r).1.status = .playing ∧
      (maybeResolveInspection shuffle r).1.pool =
        shuffle (r.pool ++ r.inspectingBoardTiles.map InspTile.letter) ∧
      alookup (maybeResolveInspection shuffle r).1.players cid =
        some { cand with isOut := true, hand := [], handSize := 0 } ∧
      (maybeResolveInspection shuffle r).1.inspectingPlayer = none ∧
      (maybeResolveInspection shuffle r).1.inspectingBoardTiles = [] ∧
      (maybeResolveInspection shuffle r).1.inspectingJudges = [] ∧
      (maybeResolveInspection shuffle r).1.inspectionVotes = []) ∧
    (r.inspectingJudges.length ≠ 0 → validVotes r < majorityNeeded r →
      rottenVotes r < majorityNeeded r →
      (majorityNeeded r : Int) ≤ (validVotes r : Int) + remainingVotes r →
      maybeResolveInspection shuffle r = (r, [])) := by
  intro shuffle r hst
  have hns : ¬ (r.status ≠ RoomStatus.inspecting) := fun h => h hst
  refine ⟨?_, ?_, ?_, ?_⟩
  · intro hj
    simp [maybeResolveInspection, hns, hj, concludeInspectionAsWinner,
      clearInspectionState]
  · intro hj hv
    simp only [validVotes, majorityNeeded] at hv
    simp [maybeResolveInspection, hns, hj, hv, concludeInspectionAsWinner,
      clearInspectionState]
  · intro cid cand hj hv hrot hcid hcand
    have hnv : ¬ (majorityNeeded r ≤ validVotes r) := Nat.not_le.mpr hv
    simp only [validVotes, rottenVotes, majorityNeeded, remainingVotes] at hrot hnv
    have heval : maybeResolveInspection shuffle r = concludeInspectionAsRotten shuffle r := by
      simp only [maybeResolveInspection]
      rw [if_neg hns, if_neg hj, if_neg hnv, if_pos hrot]
    rw [heval]
    have hrotten : concludeInspectionAsRotten shuffle r =
        (clearInspectionState
          { r with pool := shuffle (r.pool ++ r.inspectingBoardTiles.map (fun t => t.letter)),
                   players := aset r.players cid { cand with isOut := true, hand := [], handSize := 0 },
                   status := .playing },
         [.rottenBananaDeclared (some cid) cand.name, .roomStateUpdated]) := by
      simp only [concludeInspectionAsRotten, hcid, hcand]
    rw [hrotten]
    refine ⟨rfl, rfl, ?_, rfl, rfl, rfl, rfl⟩
    exact alookup_aset_self r.players cid _ (by rw [hcand]; rfl)
  · intro hj hv hr hrem
    have hnv : ¬ (majorityNeeded r ≤ validVotes r) := Nat.not_le.mpr hv
    have hnr : ¬ (majorityNeeded r ≤ rottenVotes r ∨
        (validVotes r : Int) + remainingVotes r < (majorityNeeded r : Int)) := by
      rintro (h1 | h2)
      · exact absurd h1 (Nat.not_le.mpr hr)
      · omega
    simp only [validVotes, rottenVotes, majorityNeeded, remainingVotes] at hnv hnr
    simp only [maybeResolveInspection]
    rw [if_neg hns, if_neg hj, if_neg hnv, if_neg hnr]

/-- C5 witness: the resolution contract applied to the concrete 3-judge
room with two `valid` votes (the second branch fires: winner declared
without waiting for the third vote). -/
theorem inspection_resolution_witness :
    (inspRoomW.inspectingJudges.length ≠ 0 →
      majorityNeeded inspRoomW ≤ validVotes inspRoomW →
      (maybeResolveInspection id inspRoomW).1.status = .waiting ∧
      (maybeResolveInspection id inspRoomW).1.inspectingPlayer = none ∧
      (maybeResolveInspection id inspRoomW).1.inspectingBoardTiles = [] ∧
      (maybeResolveInspection id inspRoomW).1.inspectingJudges = [] ∧
      (maybeResolveInspection id inspRoomW).1.inspectionVotes = [] ∧
      (maybeResolveInspection id inspRoomW).1.pool = inspRoomW.pool ∧
      (maybeResolveInspection id inspRoomW).1.players = inspRoomW.players) ∧
    ((maybeResolveInspection id inspRoomW).1.status = .waiting) :=
  ⟨((inspection_resolution id inspRoomW rfl).2.1),
   ((inspection_resolution id inspRoomW rfl).2.1 (by decide) (by decide)).1⟩

/-- C4 counterexample: dumping `A` from the hand `[A, A]` (pool `[B, C,
D]`, identity shuffle) succeeds, yet the resulting hand `[A, B, C, D]`
still contains the dumped letter — `indexOf`/`splice` removes only one
occurrence, so "the dumped letter is no longer in the caller's hand" is
false as stated. -/
theorem dump_removes_letter_counterexample :
    ((dump id (some dupHandRoom) "p1" (some "A") none).1.getD emptyRoom).pool = ['A'] ∧
    ((alookup ((dump id (some dupHandRoom) "p1" (some "A") none).1.getD emptyRoom).players
        "p1").map Player.hand) = some ['A', 'B', 'C', 'D'] ∧
    ((alookup ((dump id (some dupHandRoom) "p1" (some "A") none).1.getD emptyRoom).players
        "p1").map (fun p => decide ('A' ∈ p.hand))) = some true :=
  ⟨by decide, by decide, by decide⟩

/-- C4 (amended).  In a `playing` room, a connected non-out player
dumping a letter they hold, with a pool of at least 3 tiles: one
occurrence of the letter leaves the hand (its count drops by exactly
one before the redraw; it may remain if the hand held duplicates, and
may even be drawn back), the letter is pushed into the pool which is
reshuffled, exactly 3 tiles are drawn back to the caller only, the pool
ends exactly 2 tiles smaller, the caller's hand exactly 2 tiles larger,
and no other player or room field changes. -/
theorem dump_amended :
    ∀ (shuffle : List Char → List Char) (room : Room) (pid : PlayerId)
      (player : Player) (ls : String) (ctid : Option String) (c : Char),
    (∀ l : List Char, List.Perm (shuffle l) l) →
    room.status = .playing →
    alookup room.players pid = some player →
    player.connected = true →
    player.isOut = false →
    (jsToUpper ls).toList = [c] →
    c ∈ player.hand →
    3 ≤ room.pool.length →
    ∃ room', (dump shuffle (some room) pid (some ls) ctid).1 = some room' ∧
      room'.pool = (shuffle (room.pool ++ [c])).drop 3 ∧
      room'.pool.length + 2 = room.pool.length ∧
      alookup room'.players pid = some { player with
        hand := player.hand.erase c ++ (shuffle (room.pool ++ [c])).take 3,
        handSize := (player.hand.erase c ++ (shuffle (room.pool ++ [c])).take 3).length } ∧
      (player.hand.erase c ++ (shuffle (room.pool ++ [c])).take 3).length =
        player.hand.length + 2 ∧
      (player.hand.erase c).count c + 1 = player.hand.count c ∧
      (∀ k, k ≠ pid → alookup room'.players k = alookup room.players k) ∧
      room'.status = room.status ∧
      room'.inspectingPlayer = room.inspectingPlayer ∧
      room'.inspectingBoardTiles = room.inspectingBoardTiles ∧
      room'.inspectingJudges = room.inspectingJudges ∧
      room'.inspectionVotes = room.inspectionVotes := by
  intro shuffle room pid player ls ctid c hperm hst hlook hconn hout hls hmem h3
  have hlen1 : (jsToUpper ls).length = 1 := by
    have h1 : (jsToUpper ls).data = [c] := hls
    show (jsToUpper ls).data.length = 1
    rw [h1]
    rfl
  have hchar : singletonChar (jsToUpper ls) = c := by
    rw [singletonChar, hls]
    rfl
  have hpoollen : (shuffle (room.pool ++ [c])).length = room.pool.length + 1 := by
    rw [(hperm (room.pool ++ [c])).length_eq, List.length_append]
    rfl
  have heval : dump shuffle (some room) pid (some ls) ctid =
      (some { room with
                pool := (shuffle (room.pool ++ [c])).drop 3,
                players := aset room.players pid { player with
                  hand := player.hand.erase c ++ (shuffle (room.pool ++ [c])).take 3,
                  handSize := (player.hand.erase c ++ (shuffle (room.pool ++ [c])).take 3).length } },
       [.dumpReceived pid ((shuffle (room.pool ++ [c])).take 3) c ctid,
        .roomStateUpdated]) := by
    simp [dump, hst, hlook, hout, h3, hlen1, hchar, hmem]
  refine ⟨_, congrArg Prod.fst heval, rfl, ?_, ?_, ?_, ?_, ?_, rfl, rfl, rfl, rfl, rfl⟩
  · rw [List.length_drop, hpoollen]
    omega
  · exact alookup_aset_self room.players pid _ (by rw [hlook]; rfl)
  · rw [List.length_append, List.length_take, hpoollen,
      List.length_erase_of_mem hmem]
    have hpos : 0 < player.hand.length := List.length_pos.mpr
      (fun hnil => by rw [hnil] at hmem; cases hmem)
    omega
  · have hcnt := List.count_erase_self c player.hand
    have hpos : 0 < player.hand.count c := List.count_pos_iff.mpr hmem
    omega
  · intro k hk
    exact alookup_aset_ne room.players pid k _ hk

/-- C4 witness: the amended dump contract applied to the concrete
duplicated-hand room with the identity shuffle. -/
theorem dump_amended_witness :
    ∃ room', (dump id (some dupHandRoom) "p1" (some "A") none).1 = some room' ∧
      room'.pool = (id (dupHandRoom.pool ++ ['A'])).drop 3 ∧
      room'.pool.length + 2 = dupHandRoom.pool.length ∧
      alookup room'.players "p1" = some { dupPlayer with
        hand := dupPlayer.hand.erase 'A' ++ (id (dupHandRoom.pool ++ ['A'])).take 3,
        handSize := (dupPlayer.hand.erase 'A' ++ (id (dupHandRoom.pool ++ ['A'])).take 3).length } ∧
      (dupPlayer.hand.erase 'A' ++ (id (dupHandRoom.pool ++ ['A'])).take 3).length =
        dupPlayer.hand.length + 2 ∧
      (dupPlayer.hand.erase 'A').count 'A' + 1 = dupPlayer.hand.count 'A' ∧
      (∀ k, k ≠ "p1" → alookup room'.players k = alookup dupHandRoom.players k) ∧
      room'.status = dupHandRoom.status ∧
      room'.inspectingPlayer = dupHandRoom.inspectingPlayer ∧
      room'.inspectingBoardTiles = dupHandRoom.inspectingBoardTiles ∧
      room'.inspectingJudges = dupHandRoom.inspectingJudges ∧
      room'.inspectionVotes = dupHandRoom.inspectionVotes :=
  dump_amended id dupHandRoom "p1" dupPlayer "A" none 'A'
    (fun l => List.Perm.refl l) rfl (by decide) rfl rfl (by decide) (by decide)
    (by decide)

/-- C7.  The validator accepts a layout made of two disjoint dominoes:
every tile has an orthogonal neighbour inside its own pair, yet the
snapped cells do not form a single connected component.  The neighbour
check therefore does not enforce global connectivity. -/
theorem adjacency_validator_accepts_disconnected_layout :
    allTilesHaveAtLeastOneNeighbor [rt 0 0, rt 65 0, rt 650 0, rt 715 0] = true ∧
    snapTiles [rt 0 0, rt 65 0, rt 650 0, rt 715 0] =
      some [(0, 0), (1, 0), (10, 0), (11, 0)] ∧
    connectedCells [(0, 0), (1, 0), (10, 0), (11, 0)] = false := by
  refine ⟨by decide, by decide, by decide⟩

end Banana
